import Mathlib

/-!
Verification of the devgru Worker/Judge orchestration and consensus engine,
the editor-context hub, and the workspace port rendezvous.

Shallow embedding conventions:
* Go `float64` values (scores, confidences, thresholds) are modelled as `ℚ`.
  Every float computation appearing in the claims under scrutiny (sums of
  small integers, division by a list length, comparison against a configured
  threshold) is exact in both `float64` and `ℚ` on the inputs involved.
* Go `error` values are modelled as `Option String` (`none` = nil).
* Go slices are modelled as `List`, strings as `String` or `List Char`
  (a `List Char` when byte/char positions matter).
* The effectful provider calls are parameters ("oracles") of the embedded
  functions: the embedding is a function of the provider outcomes.
-/

namespace Devgru

/-! ## Workspace port rendezvous

Server side, from `generateWorkspacePort` / `simpleHash` (Go, cmd/devgru):
Go `int` is 64-bit two's complement; `for _, c := range s` iterates runes
(Unicode code points); `hash = hash*31 + int(c)` wraps modulo 2^64.

Client side, from `calculateWorkspacePort` / `simpleHash`
(TypeScript, vscode-extension): `s.charCodeAt(i)` iterates UTF-16 code
units; `hash * 31 + s.charCodeAt(i)` is IEEE-754 double arithmetic
(round to nearest, ties to even); `Math.abs` then `% 77`.
-/

namespace Port

/-- Two's-complement wraparound of a 64-bit signed integer, the behavior of
Go `int` arithmetic on overflow. -/
def wrap64 (z : Int) : Int :=
  (z + 2 ^ 63) % 2 ^ 64 - 2 ^ 63

/-- Go `simpleHash`: fold `hash = hash*31 + int(c)` over the runes of the
path with 64-bit wraparound, then `if hash < 0 { hash = -hash }` (itself a
wrapping negation: `-MinInt64` stays `MinInt64`). -/
def goSimpleHash (s : List Char) : Int :=
  let h := s.foldl (fun h c => wrap64 (h * 31 + (c.toNat : Int))) 0
  if h < 0 then wrap64 (-h) else h

/-- Go `generateWorkspacePort` for a given working directory: `8123 + hash % 77`.
Go `%` truncates toward zero (`Int.tmod`). -/
def generateWorkspacePort (cwd : List Char) : Int :=
  8123 + (goSimpleHash cwd).tmod 77

/-- Floor of the base-2 logarithm, by fuelled halving (the fuel of 1100
covers every value reachable in `jsSimpleHash`, where finite doubles stay
below `2^1030`). -/
def log2Aux : Nat → Nat → Nat
  | 0, _ => 0
  | f + 1, n => if n ≤ 1 then 0 else log2Aux f (n / 2) + 1

/-- Floor of the base-2 logarithm of a positive natural number. -/
def floorLog2 (n : Nat) : Nat := log2Aux 1100 n

/-- Rounds a nonnegative integer to the nearest IEEE-754 `float64`
(round to nearest, ties to even), returning `none` for overflow to
infinity.  For `n ≤ 2^53` the value is exact. -/
def roundDouble (n : Int) : Option Int :=
  if n ≤ 2 ^ 53 then some n
  else
    let m := n.toNat
    let k := floorLog2 m
    -- 2^k ≤ m < 2^(k+1), k ≥ 53: spacing of doubles here is 2^(k-52)
    let ulp := 2 ^ (k - 52)
    let q := m / ulp
    let r := m % ulp
    let rounded :=
      if 2 * r < ulp then q * ulp
      else if 2 * r > ulp then (q + 1) * ulp
      else if q % 2 = 0 then q * ulp else (q + 1) * ulp
    if floorLog2 rounded ≤ 1023 then some (rounded : Int) else none

/-- UTF-16 encoding of one Unicode code point, as JavaScript's
`charCodeAt` sees it: code points above `0xFFFF` become a surrogate pair. -/
def utf16Units (c : Char) : List Int :=
  if c.toNat < 0x10000 then [(c.toNat : Int)]
  else
    let v := c.toNat - 0x10000
    [(0xD800 + v / 0x400 : Int), (0xDC00 + v % 0x400 : Int)]

/-- TypeScript `simpleHash`: fold `hash = hash * 31 + s.charCodeAt(i)` over
the UTF-16 code units in double arithmetic (each `*` and `+` rounds), then
`Math.abs`.  All values are nonnegative so `Math.abs` is the identity on
finite results; `none` models overflow to infinity. -/
def jsSimpleHash (s : List Char) : Option Int :=
  (s.flatMap utf16Units).foldl
    (fun h c => do
      let x ← h
      let y ← roundDouble (x * 31)
      roundDouble (y + c))
    (some 0)

/-- TypeScript `calculateWorkspacePort` for a given workspace path:
`8123 + hash % 77`.  On a finite hash (always nonnegative here) JavaScript
`%` agrees with truncated modulus; infinity propagates to `none` (NaN). -/
def calculateWorkspacePort (path : List Char) : Option Int :=
  (jsSimpleHash path).map (fun h => 8123 + h.tmod 77)

/-- The hash of §4.5 of the spec, in unbounded integer arithmetic:
`a = a*31 + code(c)` over the code points of the path. -/
def idealHash (s : List Char) : Int :=
  s.foldl (fun h c => h * 31 + (c.toNat : Int)) 0

end Port

/-! ## Runner data model

From `internal/runner` and `internal/config`.  `float64` fields are `ℚ`,
`error` fields are `Option String` (`none` = nil).  Timing, cost and
metadata fields (`Stats`, `Duration`, `Metadata`, `EstimatedCost`) are
omitted: no claim mentions them and they feed nothing that is claimed.
-/

namespace Runner

/-- `provider.TokenUsage`. -/
structure TokenUsage where
  promptTokens : Int
  completionTokens : Int
  totalTokens : Int
deriving DecidableEq, Repr

/-- `runner.JudgeResult` (the `Duration` field is omitted). -/
structure JudgeResult where
  judgeID : String
  workerID : String
  score : Int
  reason : String
  error : Option String
deriving DecidableEq, Repr

/-- `runner.WorkerResult` (the `Stats` and `Metadata` fields are omitted). -/
structure WorkerResult where
  workerID : String
  content : String
  tokensUsed : Option TokenUsage
  error : Option String
  judgeResults : List JudgeResult
  averageScore : ℚ
deriving DecidableEq, Repr

/-- The Go zero value `WorkerResult{}` of a freshly allocated slice slot. -/
def zeroWorkerResult : WorkerResult :=
  { workerID := "", content := "", tokensUsed := none, error := none
    judgeResults := [], averageScore := 0 }

instance : Inhabited WorkerResult := ⟨zeroWorkerResult⟩

/-- `runner.Consensus`. -/
structure Consensus where
  algorithm : String
  winner : String
  content : String
  confidence : ℚ
  reasoning : String
  participants : Nat
deriving DecidableEq, Repr

/-- `config.Worker`. -/
structure Worker where
  id : String
  provider : String
  temperature : ℚ
  maxTokens : Int
  systemPrompt : String
deriving DecidableEq, Repr

/-- `config.Judge`. -/
structure Judge where
  id : String
  provider : String
  systemPrompt : String
deriving DecidableEq, Repr

/-- `config.Consensus`. -/
structure ConsensusConfig where
  algorithm : String
  minScore : ℚ
deriving DecidableEq, Repr

/-- The slice of `config.Config` the runner reads. -/
structure Config where
  workers : List Worker
  judges : List Judge
  consensus : ConsensusConfig
deriving DecidableEq, Repr

/-- Outcome of one provider `Ask` call followed by
`StreamCollector.Collect`: the fields of the collector that
`runSingleWorker` reads back. -/
structure CollectorState where
  content : String
  tokensUsed : Option TokenUsage
  error : Option String
deriving DecidableEq, Repr

/-- The provider handle a worker resolves from the registry, reduced to
what `runSingleWorker` consumes: the outcome of its one streaming call and
the token estimator.  (`GetName`/`GetModel` only feed the omitted stats.) -/
structure ProviderHandle where
  askOutcome : Except String CollectorState
  estimateTokens : String → Int

/-- `runner.RunResult` (duration, cost and timestamps omitted). -/
structure RunResult where
  prompt : String
  workers : List WorkerResult
  consensus : Option Consensus
  totalTokens : Int
  success : Bool

end Runner

/-! ## Go `encoding/json`, restricted to the judge decode target

`parseJudgeResponse` calls `json.Unmarshal` on a byte slice, decoding into
`struct { Score int; Reason string }`.  We model the decoder on
`List Char`:
* the whole input must be exactly one JSON value plus trailing JSON
  whitespace (space, tab, LF, CR);
* the top-level value must be an object;
* object fields are matched to `score` / `reason` ASCII
  case-insensitively, processed in stream order (later assignments win);
* a number decodes into `int` only when its literal has no fraction or
  exponent part and fits in 64 bits; `null` leaves the field untouched;
  any other value in a matched field is a type error;
* unmatched fields of any value shape are skipped.
-/

namespace Jsonm

/-- The characters `encoding/json` treats as whitespace between tokens. -/
def isJsonWs (c : Char) : Bool :=
  c = ' ' || c = '\t' || c = '\n' || c = '\r'

/-- An opening brace, kept as a named constant. -/
def lbrace : Char := Char.ofNat 123

/-- A closing brace, kept as a named constant. -/
def rbrace : Char := Char.ofNat 125

/-- A JSON value; numbers keep their literal text, the way Go's decoder
defers `int` conversion to `strconv.ParseInt` on the literal. -/
inductive Json where
  | null
  | bool (b : Bool)
  | num (lit : List Char)
  | str (s : List Char)
  | arr (elems : List Json)
  | obj (fields : List (List Char × Json))

/-- Is `c` an ASCII digit? -/
def isDigit (c : Char) : Bool := '0' ≤ c && c ≤ '9'

/-- Span of characters belonging to a number literal after its first
character: digits, `.`, `e`, `E`, `+`, `-`. -/
def isNumCont (c : Char) : Bool :=
  isDigit c || c = '.' || c = 'e' || c = 'E' || c = '+' || c = '-'

/-- Checks a number literal against the JSON grammar
(`-?(0|[1-9][0-9]*)(\.[0-9]+)?([eE][+-]?[0-9]+)?`), the way Go's scanner
validates it. -/
def validNumber (lit : List Char) : Bool :=
  let afterSign := match lit with
    | '-' :: rest => rest
    | _ => lit
  let intOk : Bool × List Char := match afterSign with
    | '0' :: rest => (true, rest)
    | c :: rest =>
        if isDigit c then (true, rest.dropWhile isDigit) else (false, [])
    | [] => (false, [])
  match intOk with
  | (false, _) => false
  | (true, rest) =>
      let fracOk : Bool × List Char := match rest with
        | '.' :: d :: rest2 =>
            if isDigit d then (true, rest2.dropWhile isDigit) else (false, [])
        | '.' :: [] => (false, [])
        | _ => (true, rest)
      match fracOk with
      | (false, _) => false
      | (true, rest2) =>
          match rest2 with
          | [] => true
          | e :: rest3 =>
              if e = 'e' || e = 'E' then
                let rest4 := match rest3 with
                  | '+' :: r => r
                  | '-' :: r => r
                  | r => r
                match rest4 with
                | d :: r => isDigit d && r.dropWhile isDigit = []
                | [] => false
              else false

/-- Decodes one string escape; returns the decoded character and the rest
of the input, or `none` for an invalid escape.  `\uXXXX` escapes decode to
the code unit (surrogate pairing, which Go performs, is irrelevant to the
claims: no test input uses surrogates, and an undecodable escape is an
error either way). -/
def decodeEscape : List Char → Option (Char × List Char)
  | '"' :: rest => some ('"', rest)
  | '\\' :: rest => some ('\\', rest)
  | '/' :: rest => some ('/', rest)
  | 'b' :: rest => some ('\x08', rest)
  | 'f' :: rest => some ('\x0c', rest)
  | 'n' :: rest => some ('\n', rest)
  | 'r' :: rest => some ('\r', rest)
  | 't' :: rest => some ('\t', rest)
  | 'u' :: a :: b :: c :: d :: rest =>
      let hex? (x : Char) : Option Nat :=
        if isDigit x then some (x.toNat - 48)
        else if 'a' ≤ x && x ≤ 'f' then some (x.toNat - 87)
        else if 'A' ≤ x && x ≤ 'F' then some (x.toNat - 55)
        else none
      match hex? a, hex? b, hex? c, hex? d with
      | some ha, some hb, some hc, some hd =>
          some (Char.ofNat (((ha * 16 + hb) * 16 + hc) * 16 + hd), rest)
      | _, _, _, _ => none
  | _ => none

/-- Scans a JSON string body (the opening quote already consumed),
returning the decoded characters and the input after the closing quote.
Unescaped control characters below `0x20` are rejected, as in Go. -/
def scanString : Nat → List Char → Option (List Char × List Char)
  | 0, _ => none
  | _, [] => none
  | fuel + 1, c :: rest =>
      if c = '"' then some ([], rest)
      else if c = '\\' then
        match decodeEscape rest with
        | some (d, rest2) =>
            match scanString fuel rest2 with
            | some (s, rest3) => some (d :: s, rest3)
            | none => none
        | none => none
      else if c.toNat < 0x20 then none
      else
        match scanString fuel rest with
        | some (s, rest2) => some (c :: s, rest2)
        | none => none

mutual

/-- Parses one JSON value from the input (leading whitespace allowed),
returning it with the remaining input. -/
def parseValue : Nat → List Char → Option (Json × List Char)
  | 0, _ => none
  | fuel + 1, input =>
      match input.dropWhile isJsonWs with
      | [] => none
      | c :: rest =>
          if c = 'n' then
            match rest with
            | 'u' :: 'l' :: 'l' :: rest2 => some (.null, rest2)
            | _ => none
          else if c = 't' then
            match rest with
            | 'r' :: 'u' :: 'e' :: rest2 => some (.bool true, rest2)
            | _ => none
          else if c = 'f' then
            match rest with
            | 'a' :: 'l' :: 's' :: 'e' :: rest2 => some (.bool false, rest2)
            | _ => none
          else if c = '"' then
            match scanString (rest.length + 1) rest with
            | some (s, rest2) => some (.str s, rest2)
            | none => none
          else if c = lbrace then
            parseObjFields fuel rest true []
          else if c = '[' then
            parseArrElems fuel rest true []
          else if c = '-' || isDigit c then
            let lit := c :: rest.takeWhile isNumCont
            if validNumber lit then some (.num lit, rest.dropWhile isNumCont)
            else none
          else none

/-- Parses the fields of an object after its opening brace.  `first` is
true before the first field (so an immediate closing brace is allowed). -/
def parseObjFields (fuel : Nat) (input : List Char) (first : Bool)
    (acc : List (List Char × Json)) : Option (Json × List Char) :=
  match fuel with
  | 0 => none
  | fuel + 1 =>
      match input.dropWhile isJsonWs with
      | [] => none
      | c :: rest =>
          if c = rbrace then some (.obj acc.reverse, rest)
          else
            let keyInput := if first then c :: rest else
              if c = ',' then rest else []
            match keyInput.dropWhile isJsonWs with
              | '"' :: keyRest =>
                  match scanString (keyRest.length + 1) keyRest with
                  | some (key, afterKey) =>
                      match afterKey.dropWhile isJsonWs with
                      | ':' :: valInput =>
                          match parseValue fuel valInput with
                          | some (v, rest2) =>
                              parseObjFields fuel rest2 false ((key, v) :: acc)
                          | none => none
                      | _ => none
                  | none => none
              | _ => none

/-- Parses the elements of an array after its opening bracket. -/
def parseArrElems (fuel : Nat) (input : List Char) (first : Bool)
    (acc : List Json) : Option (Json × List Char) :=
  match fuel with
  | 0 => none
  | fuel + 1 =>
      match input.dropWhile isJsonWs with
      | [] => none
      | c :: rest =>
          if c = ']' then some (.arr acc.reverse, rest)
          else
            let elemInput := if first then c :: rest else
              if c = ',' then rest else []
            if elemInput = [] then none
            else
              match parseValue fuel elemInput with
              | some (v, rest2) => parseArrElems fuel rest2 false (v :: acc)
              | none => none

end

/-- ASCII case-insensitive equality of field names, Go's `foldName`
matching for struct fields. -/
def foldEq (a b : List Char) : Bool :=
  let lower (c : Char) : Char :=
    if 'A' ≤ c && c ≤ 'Z' then Char.ofNat (c.toNat + 32) else c
  a.map lower = b.map lower

/-- `strconv.ParseInt` applied to a JSON number literal, the way Go's
decoder fills an `int` field: the literal must have no fraction or
exponent part and fit in a signed 64-bit integer. -/
def jsonNumberToInt (lit : List Char) : Option Int :=
  if lit.any (fun c => c = '.' || c = 'e' || c = 'E') then none
  else
    let (sign, digits) : Int × List Char := match lit with
      | '-' :: rest => (-1, rest)
      | _ => (1, lit)
    let v : Int := sign * digits.foldl (fun acc c => acc * 10 + ((c.toNat : Int) - 48)) 0
    if -(2 ^ 63) ≤ v && v < 2 ^ 63 then some v else none

/-- Applies the decoded object fields to the target struct in stream
order: fields matching `score` must hold an integral number (or `null`),
fields matching `reason` a string (or `null`); later assignments win;
unknown fields are ignored. -/
def applyJudgeFields : List (List Char × Json) → Int → List Char →
    Except String (Int × List Char)
  | [], score, reason => .ok (score, reason)
  | (k, v) :: rest, score, reason =>
      if foldEq k ('s' :: 'c' :: 'o' :: 'r' :: 'e' :: []) then
        match v with
        | .num lit =>
            match jsonNumberToInt lit with
            | some n => applyJudgeFields rest n reason
            | none => .error "cannot unmarshal number into Go struct field of type int"
        | .null => applyJudgeFields rest score reason
        | _ => .error "cannot unmarshal value into Go struct field of type int"
      else if foldEq k ('r' :: 'e' :: 'a' :: 's' :: 'o' :: 'n' :: []) then
        match v with
        | .str s => applyJudgeFields rest score s
        | .null => applyJudgeFields rest score reason
        | _ => .error "cannot unmarshal value into Go struct field of type string"
      else applyJudgeFields rest score reason

/-- `json.Unmarshal(jsonStr, &judgeResponse)`: the entire input must be a
single JSON value (plus trailing whitespace), an object, and its `score` /
`reason` fields must decode as above.  Absent fields keep the Go zero
values `0` and `""`. -/
def unmarshalJudge (s : List Char) : Except String (Int × List Char) :=
  match parseValue (s.length + 1) s with
  | none => .error "invalid JSON"
  | some (v, rest) =>
      if rest.dropWhile isJsonWs ≠ [] then
        .error "invalid character after top-level value"
      else
        match v with
        | .obj fields => applyJudgeFields fields 0 []
        | _ => .error "cannot unmarshal value into Go struct"

end Jsonm

/-! ## Judge evaluation and consensus (from `runner`) -/

namespace Runner

open Jsonm

/-- Go `unicode.IsSpace`: the Unicode White_Space code points, used by
`strings.TrimSpace`. -/
def goIsSpace (c : Char) : Bool :=
  let n := c.toNat
  (9 ≤ n && n ≤ 13) || n = 32 || n = 0x85 || n = 0xA0 || n = 0x1680 ||
  (0x2000 ≤ n && n ≤ 0x200A) || n = 0x2028 || n = 0x2029 || n = 0x202F ||
  n = 0x205F || n = 0x3000

/-- `strings.TrimSpace`. -/
def trimSpace (s : List Char) : List Char :=
  ((s.dropWhile goIsSpace).reverse.dropWhile goIsSpace).reverse

/-- `strings.Index` for a single character: index of the first occurrence,
`none` standing for Go's `-1`. -/
def firstIdxOf : List Char → Char → Option Nat
  | [], _ => none
  | x :: xs, c => if x = c then some 0 else (firstIdxOf xs c).map (· + 1)

/-- `strings.LastIndex` for a single character. -/
def lastIdxOf (s : List Char) (c : Char) : Option Nat :=
  (firstIdxOf s.reverse c).map (fun i => s.length - 1 - i)

/-- `runner.parseJudgeResponse`: trim the response, slice from the first
`{` to the last `}`, `json.Unmarshal` the slice, validate the score
range. -/
def parseJudgeResponse (response : List Char) : Except String (Int × List Char) :=
  let response := trimSpace response
  match firstIdxOf response lbrace, lastIdxOf response rbrace with
  | some start, some stop =>
      if stop ≤ start then .error "no JSON object found in response"
      else
        let jsonStr := (response.drop start).take (stop + 1 - start)
        match unmarshalJudge jsonStr with
        | .error e => .error ("failed to unmarshal JSON: " ++ e)
        | .ok (score, reason) =>
            if score < 0 || 10 < score then .error "score is out of range (0-10)"
            else .ok (score, reason)
  | _, _ => .error "no JSON object found in response"

/-- `runner.evaluateWithSingleJudge`, as a function of the provider-level
outcome `respond judge worker` of the judge's one evaluation call (provider
lookup failure, `Ask` failure and stream errors all collapse into the
`Except.error` case — each just sets `result.Error` and returns). -/
def evaluateWithSingleJudge (respond : Judge → WorkerResult → Except String (List Char))
    (worker : WorkerResult) (judge : Judge) : JudgeResult :=
  let base : JudgeResult :=
    { judgeID := judge.id, workerID := worker.workerID, score := 0
      reason := "", error := none }
  match respond judge worker with
  | .error e => { base with error := some e }
  | .ok content =>
      match parseJudgeResponse content with
      | .error e => { base with error := some ("failed to parse judge response: " ++ e) }
      | .ok (score, reason) =>
          { base with score := score, reason := String.mk reason }

/-- `runner.evaluateWithJudges`: one task per judge writing into its
configuration slot, then failed evaluations are filtered out.  Every task
returns `nil` to the errgroup, so `g.Wait()` never yields an error and the
function's error result is always `nil` — kept as `Except` to mirror the
signature. -/
def evaluateWithJudges (judges : List Judge)
    (respond : Judge → WorkerResult → Except String (List Char))
    (worker : WorkerResult) : Except String (List JudgeResult) :=
  .ok (((judges.map (evaluateWithSingleJudge respond worker))).filter
    (fun r => r.error = none))

/-- `runner.calculateAverageScore`. -/
def calculateAverageScore (judgeResults : List JudgeResult) : ℚ :=
  if judgeResults.length = 0 then 0
  else ((judgeResults.map (fun r => r.score)).sum : ℚ) / (judgeResults.length : ℚ)

/-- `runner.majorityConsensus`: first worker wins, confidence is
`1 / len(workers)`. -/
def majorityConsensus (workers : List WorkerResult) (consensus : Consensus) :
    Except String Consensus :=
  match workers with
  | [] => .error "no workers for majority consensus"
  | winner :: _ =>
      .ok { consensus with
            winner := winner.workerID
            content := winner.content
            confidence := 1 / (workers.length : ℚ)
            reasoning := "Selected response from " ++ winner.workerID ++
              " (simple majority algorithm)" }

/-- The comparison score the `scoreTop1Consensus` selection loop uses for
an error-free worker: its average score, or the neutral default `5.0` when
it has no judge results. -/
def scoreOf (w : WorkerResult) : ℚ :=
  if w.judgeResults.length = 0 then 5 else w.averageScore

/-- The selection loop of `scoreTop1Consensus`: starting from
`bestWorker = nil, bestScore = -1`, each error-free worker whose score is
strictly greater than the best seen replaces it. -/
def findBest (workers : List WorkerResult) : Option WorkerResult × ℚ :=
  workers.foldl
    (fun acc w =>
      if w.error = none then
        if acc.2 < scoreOf w then (some w, scoreOf w) else acc
      else acc)
    (none, -1)

/-- Rounds a rational to the nearest integer, ties to even — the rounding
`fmt` applies when formatting with `%.2f`. -/
def roundHalfEven (q : ℚ) : Int :=
  let f := ⌊q⌋
  let frac := q - (f : ℚ)
  if frac < 1 / 2 then f
  else if 1 / 2 < frac then f + 1
  else if f % 2 = 0 then f else f + 1

/-- `fmt.Sprintf("%.2f", q)` on the `ℚ` model of the float. -/
def formatFixed2 (q : ℚ) : String :=
  let n := roundHalfEven (q * 100)
  let sign := if n < 0 then "-" else ""
  let a := n.natAbs
  sign ++ toString (a / 100) ++ "." ++
    (if a % 100 < 10 then "0" else "") ++ toString (a % 100)

/-- The per-judge part of the `scoreTop1Consensus` reasoning string:
`"j1: s1, j2: s2, ..."` (no comma before the first entry). -/
def scoreEntries : List JudgeResult → String
  | [] => ""
  | r :: rest =>
      rest.foldl (fun acc x => acc ++ ", " ++ x.judgeID ++ ": " ++ toString x.score)
        (r.judgeID ++ ": " ++ toString r.score)

/-- The full reasoning string `scoreTop1Consensus` builds for the winner. -/
def scoreReasoning (bestWorker : WorkerResult) (bestScore : ℚ) (numJudges : Nat) :
    String :=
  let reasoning := "Selected " ++ bestWorker.workerID ++ " with average score " ++
    formatFixed2 bestScore ++ " from " ++ toString numJudges ++ " judges"
  if bestWorker.judgeResults.length > 0 then
    reasoning ++ " (" ++ scoreEntries bestWorker.judgeResults ++ ")"
  else reasoning

/-- The judge-evaluation pass of `scoreTop1Consensus`: each error-free
worker gets its judge results and average score filled in (the
`evaluateWithJudges` error branch, which would leave the worker
unevaluated, is unreachable). -/
def evaluateWorkers (judges : List Judge)
    (respond : Judge → WorkerResult → Except String (List Char))
    (workers : List WorkerResult) : List WorkerResult :=
  workers.map (fun w =>
    if w.error = none then
      match evaluateWithJudges judges respond w with
      | .error _ => w
      | .ok judgeResults =>
          { w with judgeResults := judgeResults
                   averageScore := calculateAverageScore judgeResults }
    else w)

/-- `runner.scoreTop1Consensus`. -/
def scoreTop1Consensus (cfg : Config)
    (respond : Judge → WorkerResult → Except String (List Char))
    (workers : List WorkerResult) (consensus : Consensus) :
    Except String Consensus :=
  if cfg.judges.length = 0 then majorityConsensus workers consensus
  else
    let evaluated := evaluateWorkers cfg.judges respond workers
    match findBest evaluated with
    | (none, _) => .error "no valid workers found for scoring"
    | (some bestWorker, bestScore) =>
        if bestScore < cfg.consensus.minScore then
          .error ("best score " ++ formatFixed2 bestScore ++
            " does not meet minimum threshold " ++ formatFixed2 cfg.consensus.minScore)
        else
          .ok { consensus with
                winner := bestWorker.workerID
                content := bestWorker.content
                confidence := bestScore / 10
                reasoning := scoreReasoning bestWorker bestScore cfg.judges.length }

/-- The successful-worker filter at the top of `runConsensus`: no error
and non-empty content. -/
def successfulOf (workers : List WorkerResult) : List WorkerResult :=
  workers.filter (fun w => w.error.isNone && w.content != "")

/-- `runner.runConsensus`. -/
def runConsensus (cfg : Config)
    (respond : Judge → WorkerResult → Except String (List Char))
    (workers : List WorkerResult) : Except String Consensus :=
  let successfulWorkers := successfulOf workers
  if successfulWorkers.length = 0 then
    .error "no successful workers to build consensus from"
  else
    let consensus : Consensus :=
      { algorithm := cfg.consensus.algorithm, winner := "", content := ""
        confidence := 0, reasoning := "", participants := successfulWorkers.length }
    match cfg.consensus.algorithm with
    | "majority" => majorityConsensus successfulWorkers consensus
    | "score_top1" => scoreTop1Consensus cfg respond successfulWorkers consensus
    | "embedding_cluster" => .error "embedding_cluster consensus not yet implemented"
    | "referee" => .error "referee consensus not yet implemented"
    | _ => .error ("unknown consensus algorithm: " ++ cfg.consensus.algorithm)

/-- `runner.runSingleWorker`, as a function of the provider registry
lookup `getProvider` and the outcome of the worker's one streaming call.
Always stamps the configured worker id; provider-lookup failure and `Ask`
failure set only the error; otherwise the collector's content, usage and
error are copied and, when the API reported no usage on a successful
non-empty answer, usage is estimated from text length. -/
def runSingleWorker (getProvider : String → Except String ProviderHandle)
    (prompt : String) (worker : Worker) : WorkerResult :=
  let base := { zeroWorkerResult with workerID := worker.id }
  match getProvider worker.provider with
  | .error e =>
      { base with error := some ("failed to get provider " ++ worker.provider ++ ": " ++ e) }
  | .ok prov =>
      match prov.askOutcome with
      | .error e => { base with error := some ("failed to ask provider: " ++ e) }
      | .ok collector =>
          let tokensUsed :=
            if collector.tokensUsed = none ∧ collector.error = none ∧
                collector.content ≠ "" then
              let promptTokens := prov.estimateTokens (prompt ++ worker.systemPrompt)
              let completionTokens := prov.estimateTokens collector.content
              some { promptTokens := promptTokens
                     completionTokens := completionTokens
                     totalTokens := promptTokens + completionTokens }
            else collector.tokensUsed
          { base with content := collector.content
                      tokensUsed := tokensUsed
                      error := collector.error }

/-- The fan-out of `runner.runWorkers` under an explicit completion order:
the results slice starts as `make([]WorkerResult, n)` (zero values) and the
task for configuration index `i` writes its result into slot `i` under the
mutex, in whatever order the tasks happen to finish. -/
def runWorkersSchedule (workersCfg : List Worker)
    (getProvider : String → Except String ProviderHandle) (prompt : String)
    (order : List Nat) : List WorkerResult :=
  order.foldl
    (fun results i =>
      match workersCfg[i]? with
      | some w => results.set i (runSingleWorker getProvider prompt w)
      | none => results)
    (List.replicate workersCfg.length zeroWorkerResult)

/-- `runner.runWorkers`: every task returns `nil` to the errgroup, so the
fan-out always returns the fully written results slice (here under the
configuration-order schedule; the schedule theorem shows the order does
not matter). -/
def runWorkers (workersCfg : List Worker)
    (getProvider : String → Except String ProviderHandle) (prompt : String) :
    List WorkerResult :=
  runWorkersSchedule workersCfg getProvider prompt (List.range workersCfg.length)

/-- The token half of `runner.calculateAggregateStats`: every worker with
a non-nil `TokensUsed` contributes its `TotalTokens` (the cost half feeds
only the omitted stats). -/
def calculateAggregateStats (workers : List WorkerResult) : Int :=
  workers.foldl
    (fun totalTokens w =>
      match w.tokensUsed with
      | some t => totalTokens + t.totalTokens
      | none => totalTokens)
    0

/-- `runner.Run`: fan out (which cannot fail), aggregate stats, then
consensus; a consensus error still returns the collected worker results
alongside the error. -/
def run (cfg : Config) (getProvider : String → Except String ProviderHandle)
    (respond : Judge → WorkerResult → Except String (List Char))
    (prompt : String) : RunResult × Option String :=
  let workerResults := runWorkers cfg.workers getProvider prompt
  let totalTokens := calculateAggregateStats workerResults
  match runConsensus cfg respond workerResults with
  | .error e =>
      ({ prompt := prompt, workers := workerResults, consensus := none
         totalTokens := totalTokens, success := false },
       some ("consensus failed: " ++ e))
  | .ok consensus =>
      ({ prompt := prompt, workers := workerResults, consensus := some consensus
         totalTokens := totalTokens, success := true },
       none)

end Runner

/-! ## Editor-context hub (from `internal/ide`) -/

namespace Ide

/-- `ide.SelectionMessage` (its redundant `Type` field omitted). -/
structure SelectionMessage where
  file : String
  text : String
  startLine : Int
  endLine : Int
  language : String
deriving DecidableEq, Repr

/-- `ide.DiagnosticMessage` (its redundant `Type` field omitted). -/
structure DiagnosticMessage where
  file : String
  message : String
  line : Int
  column : Int
  severity : String
deriving DecidableEq, Repr

/-- `ide.IDEContext`. -/
structure IDEContext where
  activeFile : String
  selection : Option SelectionMessage
  diagnostics : List DiagnosticMessage
  openFiles : List String
  workspaceRoot : String
deriving DecidableEq, Repr

/-- The context of a freshly created server: `&IDEContext{}`. -/
def initialContext : IDEContext :=
  { activeFile := "", selection := none, diagnostics := [], openFiles := []
    workspaceRoot := "" }

/-- An inbound hub message after its `type` tag is inspected and its
`data` payload decoded: `fileChange` / `workspace` fields are optional
because `processMessage` reads them with checked type assertions; any
unknown tag is `other`. -/
inductive IdeMsg where
  | selection (sel : SelectionMessage)
  | diagnostic (d : DiagnosticMessage)
  | fileChange (file : Option String)
  | workspace (root : Option String) (openFiles : Option (List String))
  | other (tag : String)
deriving DecidableEq, Repr

/-- `ide.Server.processMessage`, the single writer of the shared context:
`selection` sets the selection and the active file; `diagnostic` appends
and evicts the oldest entry once the list exceeds 10; `fileChange` updates
the active file (when the payload has one) and clears a selection that no
longer belongs to the active file; `workspace` replaces root and open
files; unknown tags are logged and ignored. -/
def processMessage (ctx : IDEContext) (msg : IdeMsg) : IDEContext :=
  match msg with
  | .selection sel => { ctx with selection := some sel, activeFile := sel.file }
  | .diagnostic d =>
      let ds := ctx.diagnostics ++ [d]
      { ctx with diagnostics := if ds.length > 10 then ds.tail else ds }
  | .fileChange file =>
      let ctx1 := match file with
        | some f => { ctx with activeFile := f }
        | none => ctx
      match ctx1.selection with
      | some sel => if sel.file ≠ ctx1.activeFile then { ctx1 with selection := none }
          else ctx1
      | none => ctx1
  | .workspace root openFiles =>
      let ctx1 := match root with
        | some r => { ctx with workspaceRoot := r }
        | none => ctx
      match openFiles with
      | some fs => { ctx1 with openFiles := fs }
      | none => ctx1
  | .other _ => ctx

/-- `ide.Server.GetContext`: the snapshot handed to readers, a
field-by-field deep copy of the guarded context. -/
def getContext (ctx : IDEContext) : IDEContext :=
  { activeFile := ctx.activeFile
    workspaceRoot := ctx.workspaceRoot
    openFiles := ctx.openFiles
    selection := ctx.selection
    diagnostics := ctx.diagnostics }

/-- The hub state after processing a sequence of inbound messages,
starting from a fresh server. -/
def processAll (msgs : List IdeMsg) : IDEContext :=
  msgs.foldl processMessage initialContext

/-- The diagnostics payloads carried by a message sequence, in arrival
order. -/
def diagnosticsOf (msgs : List IdeMsg) : List DiagnosticMessage :=
  msgs.filterMap (fun m =>
    match m with
    | .diagnostic d => some d
    | _ => none)

end Ide

namespace Runner

/-- The judge object of the spec's parsing scenario:
`{"score": 7, "reason": "ok"}`. -/
def canonicalJudgeObject : List Char :=
  "\x7b\"score\": 7, \"reason\": \"ok\"\x7d".data

end Runner

deriving instance DecidableEq for Except

/-! ## Theorems -/

namespace Ide

/-- After a `diagnostic` message the diagnostics list is the appended list,
trimmed by one at the front once it exceeds 10 entries; every other
message kind leaves the diagnostics untouched. -/
theorem processMessage_diagnostics (ctx : IDEContext) (m : IdeMsg) :
    (processMessage ctx m).diagnostics =
      match m with
      | .diagnostic d =>
          let ds := ctx.diagnostics ++ [d]
          if ds.length > 10 then ds.tail else ds
      | _ => ctx.diagnostics := by
  cases m with
  | selection sel => rfl
  | diagnostic d => rfl
  | fileChange file =>
      cases file <;> simp only [processMessage] <;> split <;> first | rfl | split <;> rfl
  | workspace root openFiles =>
      cases root <;> cases openFiles <;> rfl
  | other tag => rfl

/-- The last-ten characterization of one diagnostics step, from a list
of at most 10 entries. -/
theorem diag_step_lastTen (D : List DiagnosticMessage) (d : DiagnosticMessage)
    (h : D.length ≤ 10) (R : List DiagnosticMessage) :
    (if (D ++ [d]).length > 10 then (D ++ [d]).tail else D ++ [d]).length ≤ 10
    ∧ ((if (D ++ [d]).length > 10 then (D ++ [d]).tail else D ++ [d]) ++ R).drop
          (((if (D ++ [d]).length > 10 then (D ++ [d]).tail else D ++ [d]) ++ R).length - 10) =
        ((D ++ [d]) ++ R).drop (((D ++ [d]) ++ R).length - 10) := by
  by_cases hlen : (D ++ [d]).length > 10
  · simp only [if_pos hlen]
    cases D with
    | nil => simp at hlen
    | cons e D0 =>
        have htail : ((e :: D0) ++ [d]).tail = D0 ++ [d] := rfl
        rw [htail]
        have hD0 : D0.length = 9 := by
          simp only [List.length_append, List.length_cons, List.length_nil] at hlen h
          omega
        constructor
        · simp only [List.length_append, List.length_cons, List.length_nil]
          omega
        · have hcons : ((e :: D0) ++ [d]) ++ R = e :: ((D0 ++ [d]) ++ R) := by simp
          rw [hcons]
          have hL : ((D0 ++ [d]) ++ R).length = 10 + R.length := by
            simp only [List.length_append, List.length_cons, List.length_nil, hD0]
          have harith : (e :: ((D0 ++ [d]) ++ R)).length - 10 =
              (((D0 ++ [d]) ++ R).length - 10) + 1 := by
            simp only [List.length_cons, hL]
            omega
          rw [harith, List.drop_succ_cons]
  · simp only [if_neg hlen]
    constructor
    · simp only [List.length_append, List.length_cons, List.length_nil] at hlen ⊢
      omega
    · trivial

/-- Folding messages from a context with at most 10 diagnostics yields the
last ten of the starting diagnostics followed by the appended ones. -/
theorem foldl_diagnostics_lastTen :
    ∀ (msgs : List IdeMsg) (ctx : IDEContext), ctx.diagnostics.length ≤ 10 →
      (msgs.foldl processMessage ctx).diagnostics =
        (ctx.diagnostics ++ diagnosticsOf msgs).drop
          ((ctx.diagnostics ++ diagnosticsOf msgs).length - 10)
  | [], ctx, h => by
      simp only [List.foldl_nil, diagnosticsOf, List.filterMap_nil, List.append_nil]
      have : ctx.diagnostics.length - 10 = 0 := by omega
      rw [this, List.drop_zero]
  | m :: rest, ctx, h => by
      simp only [List.foldl_cons]
      cases m with
      | diagnostic d =>
          have hstep := diag_step_lastTen ctx.diagnostics d h (diagnosticsOf rest)
          have hd : (processMessage ctx (.diagnostic d)).diagnostics =
              if (ctx.diagnostics ++ [d]).length > 10 then (ctx.diagnostics ++ [d]).tail
              else ctx.diagnostics ++ [d] := rfl
          have ih := foldl_diagnostics_lastTen rest (processMessage ctx (.diagnostic d))
            (by rw [hd]; exact hstep.1)
          rw [ih, hd]
          have hdiags : diagnosticsOf (IdeMsg.diagnostic d :: rest) =
              d :: diagnosticsOf rest := rfl
          rw [hdiags]
          have : ctx.diagnostics ++ d :: diagnosticsOf rest =
              (ctx.diagnostics ++ [d]) ++ diagnosticsOf rest := by simp
          rw [this]
          exact hstep.2
      | selection sel =>
          have ih := foldl_diagnostics_lastTen rest (processMessage ctx (.selection sel)) h
          rw [ih]; rfl
      | fileChange file =>
          have hne : (processMessage ctx (.fileChange file)).diagnostics =
              ctx.diagnostics := processMessage_diagnostics ctx (.fileChange file)
          have ih := foldl_diagnostics_lastTen rest (processMessage ctx (.fileChange file))
            (by rw [hne]; exact h)
          rw [ih, hne]; rfl
      | workspace root openFiles =>
          have hne : (processMessage ctx (.workspace root openFiles)).diagnostics =
              ctx.diagnostics := processMessage_diagnostics ctx (.workspace root openFiles)
          have ih := foldl_diagnostics_lastTen rest (processMessage ctx (.workspace root openFiles))
            (by rw [hne]; exact h)
          rw [ih, hne]; rfl
      | other tag =>
          have ih := foldl_diagnostics_lastTen rest (processMessage ctx (.other tag)) h
          rw [ih]; rfl

/-- Selection and active file after each message kind: the `selection`
invariant is (re-)established or preserved by every message. -/
theorem processMessage_selection_inv (ctx : IDEContext) (m : IdeMsg)
    (h : ∀ sel, ctx.selection = some sel → sel.file = ctx.activeFile) :
    ∀ sel, (processMessage ctx m).selection = some sel →
      sel.file = (processMessage ctx m).activeFile := by
  intro sel hsel
  cases m with
  | selection s =>
      simp only [processMessage] at hsel ⊢
      cases hsel
      rfl
  | diagnostic d =>
      simp only [processMessage] at hsel ⊢
      exact h sel hsel
  | fileChange file =>
      cases file with
      | some f =>
          have hpost : processMessage ctx (.fileChange (some f)) =
              (match ctx.selection with
               | some sel0 =>
                   if sel0.file ≠ f then { ctx with activeFile := f, selection := none }
                   else { ctx with activeFile := f }
               | none => { ctx with activeFile := f }) := rfl
          rw [hpost] at hsel ⊢
          cases hs : ctx.selection with
          | none =>
              simp only [hs] at hsel
              exact absurd hsel (by simp)
          | some sel0 =>
              simp only [hs] at hsel ⊢
              by_cases hne : sel0.file ≠ f
              · rw [if_pos hne] at hsel
                simp at hsel
              · rw [if_neg hne] at hsel ⊢
                simp only at hsel
                cases hsel
                push_neg at hne
                exact hne
      | none =>
          have hpost : processMessage ctx (.fileChange none) =
              (match ctx.selection with
               | some sel0 =>
                   if sel0.file ≠ ctx.activeFile then { ctx with selection := none }
                   else ctx
               | none => ctx) := rfl
          rw [hpost] at hsel ⊢
          cases hs : ctx.selection with
          | none =>
              simp only [hs] at hsel
              exact absurd hsel (by simp)
          | some sel0 =>
              simp only [hs] at hsel ⊢
              by_cases hne : sel0.file ≠ ctx.activeFile
              · rw [if_pos hne] at hsel
                simp at hsel
              · rw [if_neg hne] at hsel ⊢
                exact h sel hsel
  | workspace root openFiles =>
      cases root <;> cases openFiles <;>
        simp only [processMessage] at hsel ⊢ <;>
        exact h sel hsel
  | other tag =>
      exact h sel hsel

/-- The selection-belongs-to-active-file invariant is preserved by any
message sequence. -/
theorem foldl_selection_inv :
    ∀ (msgs : List IdeMsg) (ctx : IDEContext),
      (∀ sel, ctx.selection = some sel → sel.file = ctx.activeFile) →
      ∀ sel, (msgs.foldl processMessage ctx).selection = some sel →
        sel.file = (msgs.foldl processMessage ctx).activeFile
  | [], _, h => h
  | m :: rest, ctx, h => by
      simp only [List.foldl_cons]
      exact foldl_selection_inv rest (processMessage ctx m)
        (processMessage_selection_inv ctx m h)

end Ide

/-- C8: For every sequence of inbound hub messages, the `EditorContext`
diagnostics list never holds more than 10 entries: each `diagnostic`
message appends one entry and, when the length exceeds 10, only the oldest
entry is evicted, so the context always holds exactly the (at most) 10
most recent diagnostics in arrival order. -/
theorem claim_C8_diagnostics_bounded (msgs : List Ide.IdeMsg) :
    (Ide.processAll msgs).diagnostics =
      (Ide.diagnosticsOf msgs).drop ((Ide.diagnosticsOf msgs).length - 10)
    ∧ (Ide.processAll msgs).diagnostics.length ≤ 10 := by
  have h := Ide.foldl_diagnostics_lastTen msgs Ide.initialContext (by simp [Ide.initialContext])
  have hinit : Ide.initialContext.diagnostics = [] := rfl
  rw [Ide.processAll, h, hinit, List.nil_append]
  refine ⟨rfl, ?_⟩
  rw [List.length_drop]
  omega

/-- C9: The hub preserves the invariant that a non-empty selection belongs
to the active file: a `selection` message sets both the selection and the
active file; a `fileChange` to a file different from the selection's file
clears the selection; and after `selection` for file A followed by
`fileChange` to a different file B, the context snapshot has no
selection. -/
theorem claim_C9_selection_invariant :
    (∀ (msgs : List Ide.IdeMsg) sel, (Ide.processAll msgs).selection = some sel →
        sel.file = (Ide.processAll msgs).activeFile)
    ∧ (∀ (ctx : Ide.IDEContext) (s : Ide.SelectionMessage),
        (Ide.processMessage ctx (.selection s)).selection = some s ∧
        (Ide.processMessage ctx (.selection s)).activeFile = s.file)
    ∧ (∀ (ctx : Ide.IDEContext) sel (f : String), ctx.selection = some sel →
        f ≠ sel.file →
        (Ide.processMessage ctx (.fileChange (some f))).selection = none)
    ∧ (∀ (msgs : List Ide.IdeMsg) (s : Ide.SelectionMessage) (f : String),
        f ≠ s.file →
        (Ide.getContext (Ide.processAll
          (msgs ++ [.selection s, .fileChange (some f)]))).selection = none) := by
  refine ⟨?_, ?_, ?_, ?_⟩
  · intro msgs sel hsel
    exact Ide.foldl_selection_inv msgs Ide.initialContext (by intro sel h; simp [Ide.initialContext] at h) sel hsel
  · intro ctx s
    exact ⟨rfl, rfl⟩
  · intro ctx sel f hsel hne
    simp only [Ide.processMessage, hsel]
    rw [if_pos]
    exact fun he => hne he.symm
  · intro msgs s f hne
    rw [Ide.processAll, List.foldl_append]
    simp only [List.foldl_cons, List.foldl_nil]
    set ctx1 := Ide.processMessage (msgs.foldl Ide.processMessage Ide.initialContext)
      (.selection s)
    have h1 : ctx1.selection = some s := rfl
    have hsel : (Ide.processMessage ctx1 (.fileChange (some f))).selection = none := by
      simp only [Ide.processMessage, h1]
      rw [if_pos]
      exact fun he => hne he.symm
    simpa [Ide.getContext] using hsel

namespace Runner

/-- Members of the successful-worker filter have no error and non-empty
content. -/
theorem mem_successfulOf {w : WorkerResult} {ws : List WorkerResult}
    (h : w ∈ successfulOf ws) : w.error = none ∧ w.content ≠ "" := by
  have := List.of_mem_filter h
  simp only [Bool.and_eq_true, Option.isNone_iff_eq_none, bne_iff_ne, ne_eq] at this
  exact this

/-- `runSingleWorker` stamps the configured worker id on every path. -/
theorem runSingleWorker_workerID (getProvider : String → Except String ProviderHandle)
    (prompt : String) (worker : Worker) :
    (runSingleWorker getProvider prompt worker).workerID = worker.id := by
  unfold runSingleWorker
  split
  · rfl
  · split
    · rfl
    · rfl

/-- The aggregate token fold equals the sum of `TotalTokens` over workers
reporting usage. -/
theorem calculateAggregateStats_eq_sum (ws : List WorkerResult) :
    calculateAggregateStats ws =
      ((ws.filterMap WorkerResult.tokensUsed).map TokenUsage.totalTokens).sum := by
  suffices h : ∀ (l : List WorkerResult) (acc : Int),
      l.foldl (fun totalTokens w =>
        match w.tokensUsed with
        | some t => totalTokens + t.totalTokens
        | none => totalTokens) acc =
      acc + ((l.filterMap WorkerResult.tokensUsed).map TokenUsage.totalTokens).sum by
    have := h ws 0
    simpa [calculateAggregateStats] using this
  intro l
  induction l with
  | nil => intro acc; simp
  | cons w rest ih =>
      intro acc
      cases ht : w.tokensUsed with
      | none =>
          simp only [List.foldl_cons, ht, List.filterMap_cons, ht]
          exact ih acc
      | some t =>
          simp only [List.foldl_cons, ht, List.filterMap_cons, ht, List.map_cons,
            List.sum_cons]
          rw [ih (acc + t.totalTokens)]
          ring

/-- `Run` always carries the collected worker results, and its total token
count is the aggregate fold over them, whether or not consensus
succeeded. -/
theorem run_workers_and_tokens (cfg : Config)
    (getProvider : String → Except String ProviderHandle)
    (respond : Judge → WorkerResult → Except String (List Char)) (prompt : String) :
    (run cfg getProvider respond prompt).1.workers =
      runWorkers cfg.workers getProvider prompt
    ∧ (run cfg getProvider respond prompt).1.totalTokens =
      calculateAggregateStats (runWorkers cfg.workers getProvider prompt) := by
  constructor
  · unfold run
    dsimp only
    split <;> rfl
  · unfold run
    dsimp only
    split <;> rfl

end Runner

/-- C6: For every non-empty list of successful workers, the majority
algorithm selects the first successful worker in configuration order as
winner, copies its content, and sets confidence to 1 divided by the number
of successful participants. -/
theorem claim_C6_majority_first_wins (cfg : Runner.Config)
    (respond : Runner.Judge → Runner.WorkerResult → Except String (List Char))
    (workers : List Runner.WorkerResult) (w : Runner.WorkerResult)
    (rest : List Runner.WorkerResult)
    (halg : cfg.consensus.algorithm = "majority")
    (hsucc : Runner.successfulOf workers = w :: rest) :
    Runner.runConsensus cfg respond workers =
      .ok { algorithm := "majority", winner := w.workerID, content := w.content
            confidence := 1 / (((w :: rest).length : ℚ))
            reasoning := "Selected response from " ++ w.workerID ++
              " (simple majority algorithm)"
            participants := (w :: rest).length } := by
  unfold Runner.runConsensus
  rw [hsucc, halg]
  dsimp only
  rw [if_neg (by simp)]
  rfl

/-- Witness for C6 at the spec scenario: three workers, one succeeds with
content `X`, two fail — the sole successful worker wins with confidence
1.0. -/
theorem claim_C6_majority_first_wins_witness :
    Runner.successfulOf
        [{ workerID := "w1", content := "", tokensUsed := none,
           error := some "network error", judgeResults := [], averageScore := 0 },
         { workerID := "w2", content := "X", tokensUsed := none, error := none,
           judgeResults := [], averageScore := 0 },
         { workerID := "w3", content := "", tokensUsed := none,
           error := some "network error", judgeResults := [], averageScore := 0 }] =
      [{ workerID := "w2", content := "X", tokensUsed := none, error := none,
         judgeResults := [], averageScore := 0 }]
    ∧ Runner.runConsensus
        { workers := [], judges := [],
          consensus := { algorithm := "majority", minScore := 0 } }
        (fun _ _ => .error "unused")
        [{ workerID := "w1", content := "", tokensUsed := none,
           error := some "network error", judgeResults := [], averageScore := 0 },
         { workerID := "w2", content := "X", tokensUsed := none, error := none,
           judgeResults := [], averageScore := 0 },
         { workerID := "w3", content := "", tokensUsed := none,
           error := some "network error", judgeResults := [], averageScore := 0 }] =
      .ok { algorithm := "majority", winner := "w2", content := "X", confidence := 1
            reasoning := "Selected response from w2 (simple majority algorithm)"
            participants := 1 } := by
  constructor
  · decide
  · have h := claim_C6_majority_first_wins
      { workers := [], judges := [],
        consensus := { algorithm := "majority", minScore := 0 } }
      (fun _ _ => .error "unused")
      [{ workerID := "w1", content := "", tokensUsed := none,
         error := some "network error", judgeResults := [], averageScore := 0 },
       { workerID := "w2", content := "X", tokensUsed := none, error := none,
         judgeResults := [], averageScore := 0 },
       { workerID := "w3", content := "", tokensUsed := none,
         error := some "network error", judgeResults := [], averageScore := 0 }]
      { workerID := "w2", content := "X", tokensUsed := none, error := none,
        judgeResults := [], averageScore := 0 }
      [] rfl (by decide)
    exact h.trans (congrArg Except.ok (by simp))

/-- C5: running consensus with `score_top1` and zero configured judges
produces a `Consensus` agreeing with the one from `majority` on the same
input, in winner, content, confidence and participants (and reasoning). -/
theorem claim_C5_score_top1_zero_judges (cfg : Runner.Config)
    (respond : Runner.Judge → Runner.WorkerResult → Except String (List Char))
    (workers : List Runner.WorkerResult)
    (hjudges : cfg.judges = [])
    (hsucc : Runner.successfulOf workers ≠ []) :
    ∃ c1 c2,
      Runner.runConsensus
          { cfg with consensus := { cfg.consensus with algorithm := "score_top1" } }
          respond workers = .ok c1
      ∧ Runner.runConsensus
          { cfg with consensus := { cfg.consensus with algorithm := "majority" } }
          respond workers = .ok c2
      ∧ c1.winner = c2.winner ∧ c1.content = c2.content
      ∧ c1.confidence = c2.confidence ∧ c1.participants = c2.participants
      ∧ c1.reasoning = c2.reasoning := by
  obtain ⟨w, rest, hw⟩ := List.exists_cons_of_ne_nil hsucc
  have h2 := claim_C6_majority_first_wins
    { cfg with consensus := { cfg.consensus with algorithm := "majority" } }
    respond workers w rest rfl hw
  have h1 : Runner.runConsensus
      { cfg with consensus := { cfg.consensus with algorithm := "score_top1" } }
      respond workers =
      .ok { algorithm := "score_top1", winner := w.workerID, content := w.content
            confidence := 1 / (((w :: rest).length : ℚ))
            reasoning := "Selected response from " ++ w.workerID ++
              " (simple majority algorithm)"
            participants := (w :: rest).length } := by
    unfold Runner.runConsensus
    rw [hw]
    dsimp only
    rw [if_neg (by simp)]
    show Runner.scoreTop1Consensus _ respond (w :: rest) _ = _
    unfold Runner.scoreTop1Consensus
    rw [if_pos (by show cfg.judges.length = 0; rw [hjudges]; rfl)]
    rfl
  exact ⟨_, _, h1, h2, rfl, rfl, rfl, rfl, rfl⟩

/-- Witness for C5: with zero judges, `score_top1` and `majority` give the
same winner, content, confidence and participant count on a concrete
input. -/
theorem claim_C5_score_top1_zero_judges_witness :
    ∃ c1 c2,
      Runner.runConsensus
        { workers := [], judges := [],
          consensus := { algorithm := "score_top1", minScore := 9 } }
        (fun _ _ => .error "unused")
        [{ workerID := "a", content := "A", tokensUsed := none, error := none,
           judgeResults := [], averageScore := 0 },
         { workerID := "b", content := "B", tokensUsed := none, error := none,
           judgeResults := [], averageScore := 0 }] = .ok c1
      ∧ Runner.runConsensus
        { workers := [], judges := [],
          consensus := { algorithm := "majority", minScore := 9 } }
        (fun _ _ => .error "unused")
        [{ workerID := "a", content := "A", tokensUsed := none, error := none,
           judgeResults := [], averageScore := 0 },
         { workerID := "b", content := "B", tokensUsed := none, error := none,
           judgeResults := [], averageScore := 0 }] = .ok c2
      ∧ c1.winner = c2.winner ∧ c1.content = c2.content
      ∧ c1.confidence = c2.confidence ∧ c1.participants = c2.participants
      ∧ c1.reasoning = c2.reasoning := by
  have h := claim_C5_score_top1_zero_judges
    { workers := [], judges := [],
      consensus := { algorithm := "score_top1", minScore := 9 } }
    (fun _ _ => .error "unused")
    [{ workerID := "a", content := "A", tokensUsed := none, error := none,
       judgeResults := [], averageScore := 0 },
     { workerID := "b", content := "B", tokensUsed := none, error := none,
       judgeResults := [], averageScore := 0 }]
    rfl (by decide)
  exact h

/-- C10 (amended): in every `RunResult`, `TotalTokens` is the sum of
`TotalTokens` over all workers that report token usage, whether or not
they succeeded. -/
theorem claim_C10_total_tokens (cfg : Runner.Config)
    (getProvider : String → Except String Runner.ProviderHandle)
    (respond : Runner.Judge → Runner.WorkerResult → Except String (List Char))
    (prompt : String) :
    (Runner.run cfg getProvider respond prompt).1.totalTokens =
      (((Runner.run cfg getProvider respond prompt).1.workers.filterMap
          Runner.WorkerResult.tokensUsed).map Runner.TokenUsage.totalTokens).sum := by
  have h := Runner.run_workers_and_tokens cfg getProvider respond prompt
  rw [h.1, h.2]
  exact Runner.calculateAggregateStats_eq_sum _

/-- Counterexample to C10 as stated: a worker whose stream reported token
usage before failing contributes its tokens to `TotalTokens`, so the total
is not the sum over successful workers only (here there is no successful
worker, yet the total is 42). -/
theorem claim_C10_counterexample :
    (Runner.run
        { workers := [{ id := "w1", provider := "p", temperature := 0,
                        maxTokens := 0, systemPrompt := "" }],
          judges := [],
          consensus := { algorithm := "majority", minScore := 0 } }
        (fun _ => .ok
          { askOutcome := .ok
              ({ content := "partial",
                 tokensUsed := some { promptTokens := 10, completionTokens := 32,
                                      totalTokens := 42 },
                 error := some "network error" }),
            estimateTokens := fun _ => 0 })
        (fun _ _ => .error "unused") "q").1.totalTokens = 42
    ∧ Runner.successfulOf (Runner.run
        { workers := [{ id := "w1", provider := "p", temperature := 0,
                        maxTokens := 0, systemPrompt := "" }],
          judges := [],
          consensus := { algorithm := "majority", minScore := 0 } }
        (fun _ => .ok
          { askOutcome := .ok
              ({ content := "partial",
                 tokensUsed := some { promptTokens := 10, completionTokens := 32,
                                      totalTokens := 42 },
                 error := some "network error" }),
            estimateTokens := fun _ => 0 })
        (fun _ _ => .error "unused") "q").1.workers = []
    ∧ (Runner.run
        { workers := [{ id := "w1", provider := "p", temperature := 0,
                        maxTokens := 0, systemPrompt := "" }],
          judges := [],
          consensus := { algorithm := "majority", minScore := 0 } }
        (fun _ => .ok
          { askOutcome := .ok
              ({ content := "partial",
                 tokensUsed := some { promptTokens := 10, completionTokens := 32,
                                      totalTokens := 42 },
                 error := some "network error" }),
            estimateTokens := fun _ => 0 })
        (fun _ _ => .error "unused") "q").1.totalTokens ≠ 0 := by
  refine ⟨rfl, rfl, ?_⟩
  decide

/-- Witness for C9 at a concrete message sequence: a selection in `a.go`
followed by a file change to `b.go` leaves no selection in the snapshot. -/
theorem claim_C9_selection_invariant_witness :
    ("b.go" ≠ "a.go") ∧
    (Ide.getContext (Ide.processAll
      ([] ++ [.selection { file := "a.go", text := "x", startLine := 1, endLine := 2,
                           language := "go" },
              .fileChange (some "b.go")]))).selection = none := by
  constructor
  · decide
  · exact claim_C9_selection_invariant.2.2.2 []
      { file := "a.go", text := "x", startLine := 1, endLine := 2, language := "go" }
      "b.go" (by decide)

namespace Runner

/-- The write fold of `runWorkersSchedule` preserves the length of the
results slice. -/
theorem schedule_foldl_length (ws : List Worker)
    (getProvider : String → Except String ProviderHandle) (prompt : String) :
    ∀ (order : List Nat) (init : List WorkerResult),
      (order.foldl (fun results i =>
          match ws[i]? with
          | some w => results.set i (runSingleWorker getProvider prompt w)
          | none => results) init).length = init.length
  | [], _ => rfl
  | i :: rest, init => by
      simp only [List.foldl_cons]
      cases hwi : ws[i]? with
      | none =>
          simp only
          exact schedule_foldl_length ws getProvider prompt rest init
      | some w =>
          simp only
          rw [schedule_foldl_length ws getProvider prompt rest _]
          exact List.length_set init i _

/-- Slot `j` of the results slice after any sequence of index-addressed
writes: the task value if `j` was scheduled, the initial value
otherwise. -/
theorem schedule_foldl_getElem (ws : List Worker)
    (getProvider : String → Except String ProviderHandle) (prompt : String) :
    ∀ (order : List Nat) (init : List WorkerResult), init.length = ws.length →
      ∀ (j : Nat), j < ws.length →
      (order.foldl (fun results i =>
          match ws[i]? with
          | some w => results.set i (runSingleWorker getProvider prompt w)
          | none => results) init)[j]? =
        if j ∈ order then (ws[j]?).map (runSingleWorker getProvider prompt)
        else init[j]?
  | [], init, hlen, j, hj => by simp
  | i :: rest, init, hlen, j, hj => by
      simp only [List.foldl_cons]
      cases hwi : ws[i]? with
      | none =>
          simp only
          rw [schedule_foldl_getElem ws getProvider prompt rest init hlen j hj]
          have hij : j ≠ i := by
            intro he
            rw [he] at hj
            exact absurd hwi (by simp [List.getElem?_eq_getElem hj])
          simp [List.mem_cons, hij]
      | some w =>
          simp only
          rw [schedule_foldl_getElem ws getProvider prompt rest _
            (by rw [List.length_set]; exact hlen) j hj]
          by_cases hmem : j ∈ rest
          · simp [List.mem_cons, hmem]
          · by_cases hij : j = i
            · subst hij
              simp only [List.mem_cons, hmem, or_false, if_neg, eq_self_iff_true,
                if_pos, true_or]
              rw [List.getElem?_set_self (by rw [hlen]; exact hj)]
              rw [hwi]
              rfl
            · simp only [List.mem_cons, hmem, hij, or_self, if_neg, not_false_iff]
              exact List.getElem?_set_ne (fun he => hij he.symm)
  termination_by order => order.length

/-- A successfully parsed judge response has a score in `[0, 10]` — the
range check is the last gate of `parseJudgeResponse`. -/
theorem parseJudgeResponse_ok_range (resp : List Char) (s : Int) (r : List Char)
    (h : parseJudgeResponse resp = .ok (s, r)) : 0 ≤ s ∧ s ≤ 10 := by
  unfold parseJudgeResponse at h
  dsimp only at h
  split at h
  · split at h
    · exact absurd h (by simp)
    · split at h
      · exact absurd h (by simp)
      · split at h
        · exact absurd h (by simp)
        · next score reason heq hcond =>
            cases h
            simp only [Bool.or_eq_true, decide_eq_true_eq, not_or, not_lt] at hcond
            exact ⟨hcond.1, hcond.2⟩
  · exact absurd h (by simp)

/-- A judge evaluation that reports no error carries a score in
`[0, 10]`. -/
theorem evaluateWithSingleJudge_valid_range
    (respond : Judge → WorkerResult → Except String (List Char))
    (w : WorkerResult) (j : Judge)
    (h : (evaluateWithSingleJudge respond w j).error = none) :
    0 ≤ (evaluateWithSingleJudge respond w j).score ∧
      (evaluateWithSingleJudge respond w j).score ≤ 10 := by
  unfold evaluateWithSingleJudge at h ⊢
  dsimp only at h ⊢
  rcases hresp : respond j w with e | content
  · rw [hresp] at h
    simp at h
  · rw [hresp] at h
    dsimp only at h ⊢
    rcases hp : parseJudgeResponse content with e2 | sr
    · rw [hp] at h
      simp at h
    · obtain ⟨score, reason⟩ := sr
      rw [hp] at h
      exact parseJudgeResponse_ok_range content score reason hp

/-- Every judge result surviving the validity filter of
`evaluateWithJudges` is error-free with a score in `[0, 10]`. -/
theorem mem_evaluateWithJudges_valid (judges : List Judge)
    (respond : Judge → WorkerResult → Except String (List Char)) (w : WorkerResult) :
    ∀ jr ∈ (judges.map (evaluateWithSingleJudge respond w)).filter
        (fun r => r.error = none),
      jr.error = none ∧ 0 ≤ jr.score ∧ jr.score ≤ 10 := by
  intro jr hjr
  have hmem := List.mem_filter.mp hjr
  obtain ⟨j, _, hje⟩ := List.mem_map.mp hmem.1
  have herr : jr.error = none := by simpa using hmem.2
  subst hje
  exact ⟨herr, evaluateWithSingleJudge_valid_range respond w j herr⟩

/-- The average of nonnegative scores is nonnegative. -/
theorem calculateAverageScore_nonneg (rs : List JudgeResult)
    (h : ∀ r ∈ rs, 0 ≤ r.score) : 0 ≤ calculateAverageScore rs := by
  unfold calculateAverageScore
  split
  · exact le_refl 0
  · apply div_nonneg
    · apply List.sum_nonneg
      intro x hx
      obtain ⟨r, hr, hrx⟩ := List.mem_map.mp hx
      rw [← hrx]
      exact_mod_cast h r hr
    · exact_mod_cast Nat.zero_le _

/-- After the judge-evaluation pass over error-free workers, every worker
is still error-free and its comparison score exceeds the `-1` sentinel the
selection loop starts from. -/
theorem evaluateWorkers_spec (judges : List Judge)
    (respond : Judge → WorkerResult → Except String (List Char))
    (ws : List WorkerResult) (hok : ∀ w ∈ ws, w.error = none) :
    ∀ w' ∈ evaluateWorkers judges respond ws, w'.error = none ∧ -1 < scoreOf w' := by
  intro w' hw'
  obtain ⟨w, hw, he⟩ := List.mem_map.mp hw'
  have hwe := hok w hw
  subst he
  have hfw : (if w.error = none then
      match evaluateWithJudges judges respond w with
      | .error _ => w
      | .ok judgeResults =>
          { w with judgeResults := judgeResults
                   averageScore := calculateAverageScore judgeResults }
    else w) =
      { w with
        judgeResults := (judges.map (evaluateWithSingleJudge respond w)).filter
          (fun r => r.error = none)
        averageScore := calculateAverageScore
          ((judges.map (evaluateWithSingleJudge respond w)).filter
            (fun r => r.error = none)) } := by
    rw [if_pos hwe]
    rfl
  show (if w.error = none then _ else w).error = none ∧ -1 < scoreOf _
  rw [hfw]
  constructor
  · exact hwe
  · rw [scoreOf]
    split
    · norm_num
    · have hnn : 0 ≤ calculateAverageScore
          ((judges.map (evaluateWithSingleJudge respond w)).filter
            (fun r => r.error = none)) := by
        apply calculateAverageScore_nonneg
        intro r hr
        exact (mem_evaluateWithJudges_valid judges respond w r hr).2.1
      show (-1 : ℚ) < calculateAverageScore _
      linarith

/-- Characterization of the `scoreTop1Consensus` selection fold over
error-free workers: either no worker beats the accumulator, or the result
is the first worker attaining the maximum score among those beating it. -/
theorem findBest_go :
    ∀ (ws : List WorkerResult) (acc : Option WorkerResult × ℚ),
      (∀ w ∈ ws, w.error = none) →
      (ws.foldl
          (fun acc w =>
            if w.error = none then
              if acc.2 < scoreOf w then (some w, scoreOf w) else acc
            else acc) acc = acc
        ∧ ∀ w ∈ ws, scoreOf w ≤ acc.2)
      ∨ ∃ i, ∃ hi : i < ws.length,
          ws.foldl
            (fun acc w =>
              if w.error = none then
                if acc.2 < scoreOf w then (some w, scoreOf w) else acc
              else acc) acc = (some ws[i], scoreOf ws[i])
          ∧ acc.2 < scoreOf ws[i]
          ∧ (∀ j, ∀ hj : j < ws.length, j < i → scoreOf ws[j] < scoreOf ws[i])
          ∧ (∀ j, ∀ hj : j < ws.length, scoreOf ws[j] ≤ scoreOf ws[i])
  | [], acc, _ => Or.inl ⟨rfl, by simp⟩
  | w :: rest, acc, hok => by
      have hw : w.error = none := hok w (List.mem_cons_self w rest)
      simp only [List.foldl_cons, hw, if_pos]
      by_cases hlt : acc.2 < scoreOf w
      · rw [if_pos hlt]
        rcases findBest_go rest (some w, scoreOf w)
            (fun x hx => hok x (List.mem_cons_of_mem w hx)) with
          ⟨heq, hle⟩ | ⟨i, hi, heq, hgt, hstrict, hmax⟩
        · refine Or.inr ⟨0, by simp, ?_, ?_, ?_, ?_⟩
          · rw [heq]
            simp
          · simpa using hlt
          · intro j hj hji
            omega
          · intro j hj
            cases j with
            | zero => simp
            | succ k =>
                have hk : k < rest.length := by
                  simpa using hj
                have := hle rest[k] (List.getElem_mem hk)
                simpa using this
        · refine Or.inr ⟨i + 1, by simp only [List.length_cons]; omega, ?_, ?_, ?_, ?_⟩
          · rw [heq]
            simp
          · have h2 : (scoreOf w : ℚ) < scoreOf rest[i] := by simpa using hgt
            have h3 : acc.2 < scoreOf rest[i] := lt_trans hlt h2
            simpa using h3
          · intro j hj hji
            cases j with
            | zero =>
                have h2 : (scoreOf w : ℚ) < scoreOf rest[i] := by simpa using hgt
                simpa using h2
            | succ k =>
                have hk : k < rest.length := by simpa using hj
                have := hstrict k hk (by omega)
                simpa using this
          · intro j hj
            cases j with
            | zero =>
                have h2 : (scoreOf w : ℚ) < scoreOf rest[i] := by simpa using hgt
                simpa using h2.le
            | succ k =>
                have hk : k < rest.length := by simpa using hj
                have := hmax k hk
                simpa using this
      · rw [if_neg hlt]
        push_neg at hlt
        rcases findBest_go rest acc
            (fun x hx => hok x (List.mem_cons_of_mem w hx)) with
          ⟨heq, hle⟩ | ⟨i, hi, heq, hgt, hstrict, hmax⟩
        · refine Or.inl ⟨heq, ?_⟩
          intro x hx
          rcases List.mem_cons.mp hx with hx0 | hxr
          · exact hx0 ▸ hlt
          · exact hle x hxr
        · refine Or.inr ⟨i + 1, by simp only [List.length_cons]; omega, ?_, ?_, ?_, ?_⟩
          · rw [heq]
            simp
          · simpa using hgt
          · intro j hj hji
            cases j with
            | zero =>
                have h2 : acc.2 < scoreOf rest[i] := hgt
                have h3 : scoreOf w ≤ acc.2 := hlt
                have : scoreOf w < scoreOf rest[i] := lt_of_le_of_lt h3 h2
                simpa using this
            | succ k =>
                have hk : k < rest.length := by simpa using hj
                have := hstrict k hk (by omega)
                simpa using this
          · intro j hj
            cases j with
            | zero =>
                have h2 : acc.2 < scoreOf rest[i] := hgt
                have h3 : scoreOf w ≤ acc.2 := hlt
                have : scoreOf w ≤ scoreOf rest[i] := le_of_lt (lt_of_le_of_lt h3 h2)
                simpa using this
            | succ k =>
                have hk : k < rest.length := by simpa using hj
                have := hmax k hk
                simpa using this

/-- Over a non-empty list of error-free workers whose scores all exceed
the `-1` sentinel, the selection fold yields the first worker attaining
the maximum comparison score. -/
theorem findBest_spec (ws : List WorkerResult) (hne : ws ≠ [])
    (hok : ∀ w ∈ ws, w.error = none) (hpos : ∀ w ∈ ws, -1 < scoreOf w) :
    ∃ i, ∃ hi : i < ws.length,
      findBest ws = (some ws[i], scoreOf ws[i])
      ∧ (∀ j, ∀ hj : j < ws.length, j < i → scoreOf ws[j] < scoreOf ws[i])
      ∧ (∀ j, ∀ hj : j < ws.length, scoreOf ws[j] ≤ scoreOf ws[i]) := by
  rcases findBest_go ws (none, -1) hok with ⟨_, hle⟩ | ⟨i, hi, heq, _, hstrict, hmax⟩
  · obtain ⟨w, rest, hw⟩ := List.exists_cons_of_ne_nil hne
    have h1 := hle w (by rw [hw]; exact List.mem_cons_self w rest)
    have h2 := hpos w (by rw [hw]; exact List.mem_cons_self w rest)
    simp only at h1
    linarith
  · exact ⟨i, hi, heq, hstrict, hmax⟩

/-- `majorityConsensus` on a non-empty worker list, reduced. -/
theorem majorityConsensus_cons (w : WorkerResult) (rest : List WorkerResult)
    (c : Consensus) :
    majorityConsensus (w :: rest) c =
      .ok { c with winner := w.workerID, content := w.content
                   confidence := 1 / (((w :: rest).length : ℚ))
                   reasoning := "Selected response from " ++ w.workerID ++
                     " (simple majority algorithm)" } := rfl

/-- `scoreTop1Consensus` with judges configured, reduced through a known
selection-fold result. -/
theorem scoreTop1_judged (cfg : Config)
    (respond : Judge → WorkerResult → Except String (List Char))
    (ws : List WorkerResult) (c : Consensus) (hj : ¬ cfg.judges.length = 0)
    (bw : WorkerResult) (bs : ℚ)
    (hfb : findBest (evaluateWorkers cfg.judges respond ws) = (some bw, bs)) :
    scoreTop1Consensus cfg respond ws c =
      if bs < cfg.consensus.minScore then
        .error ("best score " ++ formatFixed2 bs ++
          " does not meet minimum threshold " ++ formatFixed2 cfg.consensus.minScore)
      else
        .ok { c with winner := bw.workerID, content := bw.content
                     confidence := bs / 10
                     reasoning := scoreReasoning bw bs cfg.judges.length } := by
  unfold scoreTop1Consensus
  rw [if_neg hj]
  dsimp only
  rw [hfb]

/-- Folding score entries onto a seed only appends to it. -/
theorem scoreEntries_foldl_prefix :
    ∀ (l : List JudgeResult) (a : String), ∃ s,
      l.foldl (fun acc x => acc ++ ", " ++ x.judgeID ++ ": " ++ toString x.score) a
        = a ++ s
  | [], a => ⟨"", by simp⟩
  | x :: rest, a => by
      obtain ⟨s, hs⟩ := scoreEntries_foldl_prefix rest
        (a ++ ", " ++ x.judgeID ++ ": " ++ toString x.score)
      refine ⟨", " ++ x.judgeID ++ ": " ++ toString x.score ++ s, ?_⟩
      rw [List.foldl_cons, hs]
      simp [String.append_assoc]

/-- Every judge in the fold appears in the produced entry string as the
substring `"<judgeID>: <score>"`. -/
theorem scoreEntries_foldl_mem :
    ∀ (l : List JudgeResult) (a : String) (r : JudgeResult), r ∈ l →
      ∃ p q, l.foldl (fun acc x => acc ++ ", " ++ x.judgeID ++ ": " ++ toString x.score) a
        = p ++ (r.judgeID ++ ": " ++ toString r.score) ++ q
  | [], _, r, hr => absurd hr (List.not_mem_nil r)
  | x :: rest, a, r, hr => by
      rcases List.mem_cons.mp hr with hx | hrest
      · subst hx
        obtain ⟨s, hs⟩ := scoreEntries_foldl_prefix rest
          (a ++ ", " ++ r.judgeID ++ ": " ++ toString r.score)
        refine ⟨a ++ ", ", s, ?_⟩
        rw [List.foldl_cons, hs]
        simp [String.append_assoc]
      · exact scoreEntries_foldl_mem rest _ r hrest

/-- Every judge result of the winner appears in the reasoning string as
`"<judgeID>: <score>"`. -/
theorem scoreReasoning_mentions (bw : WorkerResult) (bs : ℚ) (n : Nat)
    (r : JudgeResult) (hr : r ∈ bw.judgeResults) :
    ∃ p q, scoreReasoning bw bs n = p ++ (r.judgeID ++ ": " ++ toString r.score) ++ q := by
  unfold scoreReasoning
  rw [if_pos (by simpa [List.length_pos] using List.ne_nil_of_mem hr)]
  cases hrs : bw.judgeResults with
  | nil =>
      rw [hrs] at hr
      exact absurd hr (List.not_mem_nil r)
  | cons x rest =>
      rw [hrs] at hr
      unfold scoreEntries
      dsimp only
      rcases List.mem_cons.mp hr with hx | hrest
      · subst hx
        obtain ⟨s, hs⟩ := scoreEntries_foldl_prefix rest
          (r.judgeID ++ ": " ++ toString r.score)
        rw [hs]
        refine ⟨"Selected " ++ bw.workerID ++ " with average score " ++
          formatFixed2 bs ++ " from " ++ toString n ++ " judges" ++ " (",
          s ++ ")", ?_⟩
        simp [String.append_assoc]
      · obtain ⟨p, q, hpq⟩ := scoreEntries_foldl_mem rest
          (x.judgeID ++ ": " ++ toString x.score) r hrest
        rw [hpq]
        refine ⟨"Selected " ++ bw.workerID ++ " with average score " ++
          formatFixed2 bs ++ " from " ++ toString n ++ " judges" ++ " (" ++ p,
          q ++ ")", ?_⟩
        simp [String.append_assoc]

/-- Dropping a prefix-scan stops at the first element failing the
predicate, so it distributes over an append whose right part starts with
such an element. -/
theorem dropWhile_append_cons (p : Char → Bool) :
    ∀ (a : List Char) (x : Char) (xs : List Char), p x = false →
      (a ++ x :: xs).dropWhile p = a.dropWhile p ++ x :: xs
  | [], x, xs, hx => by simp [List.dropWhile_cons, hx]
  | c :: a, x, xs, hx => by
      by_cases hc : p c
      · simp only [List.cons_append, List.dropWhile_cons, hc, if_pos]
        exact dropWhile_append_cons p a x xs hx
      · simp [List.dropWhile_cons, hc]

/-- `strings.Index` of a character not occurring in the prefix finds the
head of the suffix. -/
theorem firstIdxOf_append_cons_self :
    ∀ (a : List Char) (c : Char) (xs : List Char), c ∉ a →
      firstIdxOf (a ++ c :: xs) c = some a.length
  | [], c, xs, _ => by simp [firstIdxOf]
  | y :: a, c, xs, hc => by
      have hyc : ¬ y = c := fun he => hc (he ▸ List.mem_cons_self y a)
      simp only [List.cons_append, firstIdxOf, if_neg hyc, List.append_eq]
      rw [firstIdxOf_append_cons_self a c xs (fun hm => hc (List.mem_cons_of_mem y hm))]
      rfl

/-- `strings.LastIndex` of a character not occurring in the suffix finds
the last element of the prefix. -/
theorem lastIdxOf_append_cons_self (A : List Char) (y : Char) (B : List Char)
    (hy : y ∉ B) : lastIdxOf (A ++ y :: B) y = some A.length := by
  unfold lastIdxOf
  rw [show (A ++ y :: B).reverse = B.reverse ++ y :: A.reverse by simp]
  rw [firstIdxOf_append_cons_self _ _ _ (by simpa using hy)]
  show some ((A ++ y :: B).length - 1 - B.reverse.length) = some A.length
  have h2 : (A ++ y :: B).length = A.length + B.length + 1 := by
    simp [List.length_append]
    omega
  rw [h2, List.length_reverse]
  congr 1
  omega

/-- `strings.TrimSpace` of a string whose bracketed middle begins and ends
with non-space characters trims only the outer parts. -/
theorem trimSpace_decomp (a : List Char) (x : Char) (m : List Char) (y : Char)
    (b : List Char) (hx : goIsSpace x = false) (hy : goIsSpace y = false) :
    trimSpace (a ++ (x :: (m ++ [y])) ++ b) =
      a.dropWhile goIsSpace ++ (x :: (m ++ [y])) ++
        (b.reverse.dropWhile goIsSpace).reverse := by
  unfold trimSpace
  have h1 : (a ++ (x :: (m ++ [y])) ++ b).dropWhile goIsSpace =
      a.dropWhile goIsSpace ++ x :: (m ++ [y] ++ b) := by
    rw [show a ++ (x :: (m ++ [y])) ++ b = a ++ x :: (m ++ [y] ++ b) by simp]
    exact dropWhile_append_cons goIsSpace a x _ hx
  rw [h1]
  have h2 : (a.dropWhile goIsSpace ++ x :: (m ++ [y] ++ b)).reverse =
      b.reverse ++ y :: (m.reverse ++ x :: (a.dropWhile goIsSpace).reverse) := by
    simp
  rw [h2, dropWhile_append_cons goIsSpace _ y _ hy]
  simp

/-- Characters absent from a list are absent from its space-trimmed
versions. -/
theorem not_mem_dropWhile (p : Char → Bool) (l : List Char) (c : Char)
    (h : c ∉ l) : c ∉ l.dropWhile p :=
  fun hc => h ((List.dropWhile_sublist p).subset hc)

/-- The dispatch of `runConsensus` once the successful-worker list is
non-empty, as an `if` chain over the algorithm name. -/
theorem runConsensus_dispatch (cfg : Config)
    (respond : Judge → WorkerResult → Except String (List Char))
    (workers : List WorkerResult)
    (h : ¬ (successfulOf workers).length = 0) :
    runConsensus cfg respond workers =
      (if cfg.consensus.algorithm = "majority" then
        majorityConsensus (successfulOf workers)
          { algorithm := cfg.consensus.algorithm, winner := "", content := ""
            confidence := 0, reasoning := ""
            participants := (successfulOf workers).length }
      else if cfg.consensus.algorithm = "score_top1" then
        scoreTop1Consensus cfg respond (successfulOf workers)
          { algorithm := cfg.consensus.algorithm, winner := "", content := ""
            confidence := 0, reasoning := ""
            participants := (successfulOf workers).length }
      else if cfg.consensus.algorithm = "embedding_cluster" then
        .error "embedding_cluster consensus not yet implemented"
      else if cfg.consensus.algorithm = "referee" then
        .error "referee consensus not yet implemented"
      else .error ("unknown consensus algorithm: " ++ cfg.consensus.algorithm)) := by
  unfold runConsensus
  dsimp only
  rw [if_neg h]
  split
  · next heq => rw [if_pos heq]
  · next heq =>
      rw [if_neg (by rw [heq]; decide), if_pos heq]
  · next heq =>
      rw [if_neg (by rw [heq]; decide), if_neg (by rw [heq]; decide), if_pos heq]
  · next heq =>
      rw [if_neg (by rw [heq]; decide), if_neg (by rw [heq]; decide),
        if_neg (by rw [heq]; decide), if_pos heq]
  · next h1 h2 h3 h4 =>
      rw [if_neg h1, if_neg h2, if_neg h3, if_neg h4]

end Runner

/-- C2: the consensus step returns an error (and no `Consensus`) exactly
when no worker is successful, the algorithm is one of the unimplemented
`embedding_cluster` / `referee`, the algorithm name is unrecognized, or —
under `score_top1` with judges configured — the winner's comparison score
is strictly below the configured minimum (the boundary is inclusive, since
the check is `bestScore < MinScore`); and `Run` returns the collected
per-worker results whether or not consensus failed. -/
theorem claim_C2_consensus_error_conditions (cfg : Runner.Config)
    (respond : Runner.Judge → Runner.WorkerResult → Except String (List Char))
    (workers : List Runner.WorkerResult) :
    ((∃ e, Runner.runConsensus cfg respond workers = .error e) ↔
      (Runner.successfulOf workers = []
        ∨ cfg.consensus.algorithm = "embedding_cluster"
        ∨ cfg.consensus.algorithm = "referee"
        ∨ cfg.consensus.algorithm ∉
            (["majority", "score_top1", "embedding_cluster", "referee"] : List String)
        ∨ (cfg.consensus.algorithm = "score_top1" ∧ cfg.judges ≠ []
            ∧ (Runner.findBest (Runner.evaluateWorkers cfg.judges respond
                (Runner.successfulOf workers))).2 < cfg.consensus.minScore)))
    ∧ (∀ (getProvider : String → Except String Runner.ProviderHandle)
        (prompt : String),
        (Runner.run cfg getProvider respond prompt).1.workers =
          Runner.runWorkers cfg.workers getProvider prompt) := by
  refine ⟨?_, fun gp p => (Runner.run_workers_and_tokens cfg gp respond p).1⟩
  by_cases hsucc : (Runner.successfulOf workers).length = 0
  · have hnil : Runner.successfulOf workers = [] := List.length_eq_zero.mp hsucc
    constructor
    · intro _
      exact Or.inl hnil
    · intro _
      refine ⟨"no successful workers to build consensus from", ?_⟩
      unfold Runner.runConsensus
      dsimp only
      rw [if_pos hsucc]
  · have hne : Runner.successfulOf workers ≠ [] := fun hh => hsucc (by rw [hh]; rfl)
    rw [Runner.runConsensus_dispatch cfg respond workers hsucc]
    obtain ⟨w, rest, hw⟩ := List.exists_cons_of_ne_nil hne
    by_cases h1 : cfg.consensus.algorithm = "majority"
    · rw [if_pos h1, hw, Runner.majorityConsensus_cons]
      constructor
      · rintro ⟨e, he⟩
        exact Except.noConfusion he
      · rintro (hnil2 | h3 | h4 | h5 | ⟨h6, _, _⟩)
        · exact absurd hnil2 (List.cons_ne_nil w rest)
        · exact absurd (h1.symm.trans h3) (by decide)
        · exact absurd (h1.symm.trans h4) (by decide)
        · exact absurd (by rw [h1]; decide) h5
        · exact absurd (h1.symm.trans h6) (by decide)
    · by_cases h2 : cfg.consensus.algorithm = "score_top1"
      · rw [if_neg h1, if_pos h2]
        by_cases hj : cfg.judges.length = 0
        · unfold Runner.scoreTop1Consensus
          rw [if_pos hj, hw, Runner.majorityConsensus_cons]
          have hjnil : cfg.judges = [] := List.length_eq_zero.mp hj
          constructor
          · rintro ⟨e, he⟩
            exact Except.noConfusion he
          · rintro (hnil2 | h3 | h4 | h5 | ⟨_, hjne, _⟩)
            · exact absurd hnil2 (List.cons_ne_nil w rest)
            · exact absurd (h2.symm.trans h3) (by decide)
            · exact absurd (h2.symm.trans h4) (by decide)
            · exact absurd (by rw [h2]; decide) h5
            · exact absurd hjnil hjne
        · have hprops := Runner.evaluateWorkers_spec cfg.judges respond
            (Runner.successfulOf workers)
            (fun x hx => (Runner.mem_successfulOf hx).1)
          have hevne : Runner.evaluateWorkers cfg.judges respond
              (Runner.successfulOf workers) ≠ [] := by
            unfold Runner.evaluateWorkers
            intro hh
            exact hne (List.map_eq_nil_iff.mp hh)
          obtain ⟨i, hi, heqFB, hstrict, hmax⟩ := Runner.findBest_spec _ hevne
            (fun x hx => (hprops x hx).1) (fun x hx => (hprops x hx).2)
          rw [Runner.scoreTop1_judged cfg respond (Runner.successfulOf workers) _ hj
            _ _ heqFB]
          by_cases hmin : Runner.scoreOf (Runner.evaluateWorkers cfg.judges respond
              (Runner.successfulOf workers))[i] < cfg.consensus.minScore
          · rw [if_pos hmin]
            constructor
            · intro _
              refine Or.inr (Or.inr (Or.inr (Or.inr ⟨h2, ?_, ?_⟩)))
              · intro hh
                exact hj (by rw [hh]; rfl)
              · rw [heqFB]
                exact hmin
            · intro _
              exact ⟨_, rfl⟩
          · rw [if_neg hmin]
            constructor
            · rintro ⟨e, he⟩
              exact absurd he (by simp)
            · rintro (hnil2 | h3 | h4 | h5 | ⟨_, _, hlt⟩)
              · rw [hnil2] at hw
                exact absurd hw (by simp)
              · exact absurd (h2.symm.trans h3) (by decide)
              · exact absurd (h2.symm.trans h4) (by decide)
              · exact absurd (by rw [h2]; decide) h5
              · rw [heqFB] at hlt
                exact absurd hlt hmin
      · by_cases h3 : cfg.consensus.algorithm = "embedding_cluster"
        · rw [if_neg h1, if_neg h2, if_pos h3]
          exact ⟨fun _ => Or.inr (Or.inl h3), fun _ => ⟨_, rfl⟩⟩
        · by_cases h4 : cfg.consensus.algorithm = "referee"
          · rw [if_neg h1, if_neg h2, if_neg h3, if_pos h4]
            exact ⟨fun _ => Or.inr (Or.inr (Or.inl h4)), fun _ => ⟨_, rfl⟩⟩
          · rw [if_neg h1, if_neg h2, if_neg h3, if_neg h4]
            refine ⟨fun _ => Or.inr (Or.inr (Or.inr (Or.inl ?_))), fun _ => ⟨_, rfl⟩⟩
            intro hmem
            simp only [List.mem_cons, List.mem_singleton, List.not_mem_nil,
              or_false] at hmem
            rcases hmem with hh | hh | hh | hh
            · exact h1 hh
            · exact h2 hh
            · exact h3 hh
            · exact h4 hh

/-- C3 (amended): judge parsing slices from the first `{` to the last `}`
and decodes a `score`/`reason` object: any response in which the object
`{"score": 7, "reason": "ok"}` occurs with no `{` before it and no `}`
after it yields score 7; every successfully parsed score lies in `[0,10]`
(so out-of-range scores fail that judge); and the judge batch never
returns an error — it returns exactly the error-free judge results. -/
theorem claim_C3_judge_parsing :
    (∀ pre post : List Char, Jsonm.lbrace ∉ pre → Jsonm.rbrace ∉ post →
        Runner.parseJudgeResponse (pre ++ Runner.canonicalJudgeObject ++ post) =
          .ok (7, "ok".data))
    ∧ (∀ (resp : List Char) (s : Int) (r : List Char),
        Runner.parseJudgeResponse resp = .ok (s, r) → 0 ≤ s ∧ s ≤ 10)
    ∧ (∀ (judges : List Runner.Judge)
        (respond : Runner.Judge → Runner.WorkerResult → Except String (List Char))
        (worker : Runner.WorkerResult),
        ∃ rs, Runner.evaluateWithJudges judges respond worker = .ok rs
          ∧ ∀ jr ∈ rs, jr.error = none) := by
  refine ⟨?_, Runner.parseJudgeResponse_ok_range, ?_⟩
  · intro pre post hpre hpost
    have hcan : Runner.canonicalJudgeObject =
        Jsonm.lbrace :: ("\"score\": 7, \"reason\": \"ok\"".data ++ [Jsonm.rbrace]) := by
      decide
    unfold Runner.parseJudgeResponse
    dsimp only
    rw [hcan]
    rw [Runner.trimSpace_decomp pre Jsonm.lbrace "\"score\": 7, \"reason\": \"ok\"".data
      Jsonm.rbrace post (by decide) (by decide)]
    have hpre2m : Jsonm.lbrace ∉ pre.dropWhile Runner.goIsSpace :=
      Runner.not_mem_dropWhile _ _ _ hpre
    have hpost2m : Jsonm.rbrace ∉ (post.reverse.dropWhile Runner.goIsSpace).reverse := by
      intro hmem
      exact hpost (by
        simpa using (List.dropWhile_sublist _).subset (List.mem_reverse.mp hmem))
    have hfi : Runner.firstIdxOf
        (pre.dropWhile Runner.goIsSpace ++
          (Jsonm.lbrace :: ("\"score\": 7, \"reason\": \"ok\"".data ++ [Jsonm.rbrace])) ++
          (post.reverse.dropWhile Runner.goIsSpace).reverse) Jsonm.lbrace =
        some (pre.dropWhile Runner.goIsSpace).length := by
      rw [show pre.dropWhile Runner.goIsSpace ++
          (Jsonm.lbrace :: ("\"score\": 7, \"reason\": \"ok\"".data ++ [Jsonm.rbrace])) ++
          (post.reverse.dropWhile Runner.goIsSpace).reverse
          = pre.dropWhile Runner.goIsSpace ++
            Jsonm.lbrace :: ("\"score\": 7, \"reason\": \"ok\"".data ++ [Jsonm.rbrace] ++
              (post.reverse.dropWhile Runner.goIsSpace).reverse) by simp]
      exact Runner.firstIdxOf_append_cons_self _ _ _ hpre2m
    have hla : Runner.lastIdxOf
        (pre.dropWhile Runner.goIsSpace ++
          (Jsonm.lbrace :: ("\"score\": 7, \"reason\": \"ok\"".data ++ [Jsonm.rbrace])) ++
          (post.reverse.dropWhile Runner.goIsSpace).reverse) Jsonm.rbrace =
        some ((pre.dropWhile Runner.goIsSpace ++
          Jsonm.lbrace :: "\"score\": 7, \"reason\": \"ok\"".data).length) := by
      rw [show pre.dropWhile Runner.goIsSpace ++
          (Jsonm.lbrace :: ("\"score\": 7, \"reason\": \"ok\"".data ++ [Jsonm.rbrace])) ++
          (post.reverse.dropWhile Runner.goIsSpace).reverse
          = (pre.dropWhile Runner.goIsSpace ++
              Jsonm.lbrace :: "\"score\": 7, \"reason\": \"ok\"".data) ++
            Jsonm.rbrace :: (post.reverse.dropWhile Runner.goIsSpace).reverse by simp]
      exact Runner.lastIdxOf_append_cons_self _ _ _ hpost2m
    rw [hfi, hla]
    dsimp only
    have hlen : (pre.dropWhile Runner.goIsSpace ++
        Jsonm.lbrace :: "\"score\": 7, \"reason\": \"ok\"".data).length =
        (pre.dropWhile Runner.goIsSpace).length + 27 := by
      simp [List.length_append]
    rw [if_neg (by rw [hlen]; omega)]
    have hdrop : ((pre.dropWhile Runner.goIsSpace ++
        (Jsonm.lbrace :: ("\"score\": 7, \"reason\": \"ok\"".data ++ [Jsonm.rbrace])) ++
        (post.reverse.dropWhile Runner.goIsSpace).reverse).drop
          (pre.dropWhile Runner.goIsSpace).length)
        = (Jsonm.lbrace :: ("\"score\": 7, \"reason\": \"ok\"".data ++ [Jsonm.rbrace])) ++
          (post.reverse.dropWhile Runner.goIsSpace).reverse := by
      rw [show pre.dropWhile Runner.goIsSpace ++
          (Jsonm.lbrace :: ("\"score\": 7, \"reason\": \"ok\"".data ++ [Jsonm.rbrace])) ++
          (post.reverse.dropWhile Runner.goIsSpace).reverse
          = pre.dropWhile Runner.goIsSpace ++
            ((Jsonm.lbrace :: ("\"score\": 7, \"reason\": \"ok\"".data ++ [Jsonm.rbrace])) ++
              (post.reverse.dropWhile Runner.goIsSpace).reverse) by simp]
      exact List.drop_left _ _
    have htake : (pre.dropWhile Runner.goIsSpace ++
        Jsonm.lbrace :: "\"score\": 7, \"reason\": \"ok\"".data).length + 1 -
          (pre.dropWhile Runner.goIsSpace).length =
        (Jsonm.lbrace :: ("\"score\": 7, \"reason\": \"ok\"".data ++ [Jsonm.rbrace])).length := by
      rw [hlen]
      simp
      omega
    rw [hdrop, htake, List.take_left]
    decide
  · intro judges respond worker
    exact ⟨_, rfl, fun jr hjr => by simpa using (List.mem_filter.mp hjr).2⟩

/-- Witness for C3: the canonical object surrounded by brace-free noise
parses to score 7. -/
theorem claim_C3_judge_parsing_witness :
    (Jsonm.lbrace ∉ "noise ".data) ∧ (Jsonm.rbrace ∉ " tail".data) ∧
    Runner.parseJudgeResponse
      ("noise ".data ++ Runner.canonicalJudgeObject ++ " tail".data) =
      .ok (7, "ok".data) := by
  refine ⟨by decide, by decide, ?_⟩
  exact claim_C3_judge_parsing.1 "noise ".data " tail".data (by decide) (by decide)

/-- Counterexample to C3 as stated: a response that contains
`{"score": 7, "reason": "ok"}` but has one more closing brace after it —
the slice from the first `{` to the last `}` then has trailing data,
`json.Unmarshal` fails, no score 7 is extracted, and the judge is excluded
(the batch returns an empty result list, not an error). -/
theorem claim_C3_counterexample :
    (Runner.canonicalJudgeObject ++ [Jsonm.rbrace] =
      [] ++ Runner.canonicalJudgeObject ++ [Jsonm.rbrace])
    ∧ Runner.parseJudgeResponse (Runner.canonicalJudgeObject ++ [Jsonm.rbrace]) =
        .error "failed to unmarshal JSON: invalid character after top-level value"
    ∧ Runner.evaluateWithJudges [{ id := "j1", provider := "p", systemPrompt := "" }]
        (fun _ _ => .ok (Runner.canonicalJudgeObject ++ [Jsonm.rbrace]))
        Runner.zeroWorkerResult = .ok [] := by
  refine ⟨rfl, by decide, by decide⟩

/-- C4: under `score_top1` with judges configured, every successful worker
is evaluated (its judge results are the error-free judge outcomes and its
average is their mean); the winner is the earliest successful worker with
the strictly greatest comparison score (average of valid judge scores, or
the neutral 5.0 default with zero valid results); the emitted consensus
has confidence equal to the winning score divided by 10 and a reasoning
string mentioning each of the winner's judge ids with its raw score. -/
theorem claim_C4_score_top1_winner (cfg : Runner.Config)
    (respond : Runner.Judge → Runner.WorkerResult → Except String (List Char))
    (workers : List Runner.WorkerResult)
    (halg : cfg.consensus.algorithm = "score_top1")
    (hjudges : cfg.judges ≠ [])
    (hsucc : Runner.successfulOf workers ≠ [])
    (hmeets : cfg.consensus.minScore ≤
      (Runner.findBest (Runner.evaluateWorkers cfg.judges respond
        (Runner.successfulOf workers))).2) :
    (∀ w' ∈ Runner.evaluateWorkers cfg.judges respond (Runner.successfulOf workers),
      ∃ w ∈ Runner.successfulOf workers,
        w' = { w with
               judgeResults := (cfg.judges.map
                  (Runner.evaluateWithSingleJudge respond w)).filter
                  (fun r => r.error = none)
               averageScore := Runner.calculateAverageScore
                 ((cfg.judges.map (Runner.evaluateWithSingleJudge respond w)).filter
                   (fun r => r.error = none)) })
    ∧ ∃ c, Runner.runConsensus cfg respond workers = .ok c ∧
        ∃ i, ∃ hi : i < (Runner.evaluateWorkers cfg.judges respond
            (Runner.successfulOf workers)).length,
          c.winner = ((Runner.evaluateWorkers cfg.judges respond
            (Runner.successfulOf workers))[i]).workerID
          ∧ c.content = ((Runner.evaluateWorkers cfg.judges respond
            (Runner.successfulOf workers))[i]).content
          ∧ c.confidence = Runner.scoreOf ((Runner.evaluateWorkers cfg.judges respond
            (Runner.successfulOf workers))[i]) / 10
          ∧ (∀ j, ∀ hj : j < (Runner.evaluateWorkers cfg.judges respond
              (Runner.successfulOf workers)).length,
              Runner.scoreOf ((Runner.evaluateWorkers cfg.judges respond
                (Runner.successfulOf workers))[j]) ≤
              Runner.scoreOf ((Runner.evaluateWorkers cfg.judges respond
                (Runner.successfulOf workers))[i]))
          ∧ (∀ j, ∀ hj : j < (Runner.evaluateWorkers cfg.judges respond
              (Runner.successfulOf workers)).length, j < i →
              Runner.scoreOf ((Runner.evaluateWorkers cfg.judges respond
                (Runner.successfulOf workers))[j]) <
              Runner.scoreOf ((Runner.evaluateWorkers cfg.judges respond
                (Runner.successfulOf workers))[i]))
          ∧ (∀ r ∈ ((Runner.evaluateWorkers cfg.judges respond
              (Runner.successfulOf workers))[i]).judgeResults,
              ∃ p q : String,
                c.reasoning = p ++ (r.judgeID ++ ": " ++ toString r.score) ++ q) := by
  have hsuccL : ¬ (Runner.successfulOf workers).length = 0 :=
    fun h0 => hsucc (List.length_eq_zero.mp h0)
  have hj : ¬ cfg.judges.length = 0 :=
    fun h0 => hjudges (List.length_eq_zero.mp h0)
  constructor
  · intro w' hw'
    obtain ⟨w, hw, he⟩ := List.mem_map.mp hw'
    refine ⟨w, hw, ?_⟩
    rw [← he]
    show (if w.error = none then _ else w) = _
    rw [if_pos (Runner.mem_successfulOf hw).1]
    rfl
  · have hprops := Runner.evaluateWorkers_spec cfg.judges respond
      (Runner.successfulOf workers)
      (fun x hx => (Runner.mem_successfulOf hx).1)
    have hevne : Runner.evaluateWorkers cfg.judges respond
        (Runner.successfulOf workers) ≠ [] := by
      unfold Runner.evaluateWorkers
      intro hh
      exact hsucc (List.map_eq_nil_iff.mp hh)
    obtain ⟨i, hi, heqFB, hstrict, hmax⟩ := Runner.findBest_spec _ hevne
      (fun x hx => (hprops x hx).1) (fun x hx => (hprops x hx).2)
    rw [heqFB] at hmeets
    rw [Runner.runConsensus_dispatch cfg respond workers hsuccL,
      if_neg (by rw [halg]; decide), if_pos halg,
      Runner.scoreTop1_judged cfg respond (Runner.successfulOf workers) _ hj _ _ heqFB,
      if_neg (not_lt.mpr hmeets)]
    refine ⟨_, rfl, i, hi, rfl, rfl, rfl, hmax, hstrict, ?_⟩
    intro r hr
    exact Runner.scoreReasoning_mentions _ _ _ r hr

/-- Witness for C4 at a concrete input: two successful workers, one judge
whose provider call fails, so both workers carry the neutral comparison
score 5.0; the min-score threshold 5 is met (boundary inclusive) and a
consensus is emitted. -/
theorem claim_C4_score_top1_winner_witness :
    (5 : ℚ) ≤ (Runner.findBest (Runner.evaluateWorkers
      [{ id := "j1", provider := "p", systemPrompt := "" }]
      (fun _ _ => .error "judge unavailable")
      (Runner.successfulOf
        [{ workerID := "w1", content := "A", tokensUsed := none, error := none,
           judgeResults := [], averageScore := 0 },
         { workerID := "w2", content := "B", tokensUsed := none, error := none,
           judgeResults := [], averageScore := 0 }]))).2
    ∧ ∃ c, Runner.runConsensus
        { workers := [], judges := [{ id := "j1", provider := "p", systemPrompt := "" }],
          consensus := { algorithm := "score_top1", minScore := 5 } }
        (fun _ _ => .error "judge unavailable")
        [{ workerID := "w1", content := "A", tokensUsed := none, error := none,
           judgeResults := [], averageScore := 0 },
         { workerID := "w2", content := "B", tokensUsed := none, error := none,
           judgeResults := [], averageScore := 0 }] = .ok c := by
  refine ⟨by decide, ?_⟩
  have h := claim_C4_score_top1_winner
    { workers := [], judges := [{ id := "j1", provider := "p", systemPrompt := "" }],
      consensus := { algorithm := "score_top1", minScore := 5 } }
    (fun _ _ => .error "judge unavailable")
    [{ workerID := "w1", content := "A", tokensUsed := none, error := none,
       judgeResults := [], averageScore := 0 },
     { workerID := "w2", content := "B", tokensUsed := none, error := none,
       judgeResults := [], averageScore := 0 }]
    rfl (by decide) (by decide) (by decide)
  obtain ⟨c, hc, _⟩ := h.2
  exact ⟨c, hc⟩

/-- C7: for every run and every completion order of the concurrent worker
tasks (any permutation of the configuration indices), the results slice
equals the per-worker results in configuration order, and in particular
the `i`-th entry carries the `i`-th configured worker's id — because each
task writes into a pre-sized slice at its configuration index. -/
theorem claim_C7_worker_order (workersCfg : List Runner.Worker)
    (getProvider : String → Except String Runner.ProviderHandle) (prompt : String)
    (order : List Nat)
    (hperm : order.Perm (List.range workersCfg.length)) :
    Runner.runWorkersSchedule workersCfg getProvider prompt order =
      workersCfg.map (Runner.runSingleWorker getProvider prompt)
    ∧ (Runner.runWorkersSchedule workersCfg getProvider prompt order).map
        Runner.WorkerResult.workerID = workersCfg.map Runner.Worker.id := by
  have hmain : Runner.runWorkersSchedule workersCfg getProvider prompt order =
      workersCfg.map (Runner.runSingleWorker getProvider prompt) := by
    apply List.ext_getElem?
    intro j
    by_cases hj : j < workersCfg.length
    · have h := Runner.schedule_foldl_getElem workersCfg getProvider prompt order
        (List.replicate workersCfg.length Runner.zeroWorkerResult)
        (List.length_replicate _ _) j hj
      have hmem : j ∈ order := hperm.mem_iff.mpr (List.mem_range.mpr hj)
      rw [Runner.runWorkersSchedule, h, if_pos hmem, List.getElem?_map]
    · have hlen : (Runner.runWorkersSchedule workersCfg getProvider prompt order).length =
          workersCfg.length := by
        rw [Runner.runWorkersSchedule, Runner.schedule_foldl_length,
          List.length_replicate]
      rw [List.getElem?_eq_none (by rw [hlen]; omega),
        List.getElem?_eq_none (by rw [List.length_map]; omega)]
  refine ⟨hmain, ?_⟩
  rw [hmain, List.map_map]
  apply List.map_congr_left
  intro w _
  exact Runner.runSingleWorker_workerID getProvider prompt w

/-- Witness for C7: two configured workers completing in reversed order
still produce results in configuration order. -/
theorem claim_C7_worker_order_witness :
    ([1, 0].Perm (List.range 2))
    ∧ (Runner.runWorkersSchedule
        [{ id := "wa", provider := "p", temperature := 0, maxTokens := 0,
           systemPrompt := "" },
         { id := "wb", provider := "p", temperature := 0, maxTokens := 0,
           systemPrompt := "" }]
        (fun _ => .error "no provider") "q" [1, 0]).map
          Runner.WorkerResult.workerID = ["wa", "wb"] := by
  constructor
  · decide
  · exact (claim_C7_worker_order
      [{ id := "wa", provider := "p", temperature := 0, maxTokens := 0,
         systemPrompt := "" },
       { id := "wb", provider := "p", temperature := 0, maxTokens := 0,
         systemPrompt := "" }]
      (fun _ => .error "no provider") "q" [1, 0] (by decide)).2

namespace Port

/-- 64-bit wraparound is the identity on values already in range. -/
theorem wrap64_eq_self (z : Int) (h0 : 0 ≤ z) (h1 : z < 2 ^ 63) : wrap64 z = z := by
  have e63 : (2 : Int) ^ 63 = 9223372036854775808 := by norm_num
  have e64 : (2 : Int) ^ 64 = 18446744073709551616 := by norm_num
  unfold wrap64
  rw [e63, e64]
  rw [e63] at h1
  omega

/-- Values up to `2^53` are exact doubles. -/
theorem roundDouble_of_le (n : Int) (h : n ≤ 2 ^ 53) : roundDouble n = some n := by
  unfold roundDouble
  rw [if_pos h]

/-- An ASCII code point is a single UTF-16 code unit equal to itself. -/
theorem utf16Units_ascii (c : Char) (h : c.toNat < 128) :
    utf16Units c = [(c.toNat : Int)] := by
  unfold utf16Units
  rw [if_pos (by omega)]

/-- On an all-ASCII path the UTF-16 code-unit sequence is just the
code-point sequence. -/
theorem flatMap_utf16_ascii (s : List Char) (h : ∀ c ∈ s, c.toNat < 128) :
    s.flatMap utf16Units = s.map (fun c => (c.toNat : Int)) := by
  induction s with
  | nil => rfl
  | cons c cs ih =>
      rw [List.flatMap_cons, List.map_cons,
        utf16Units_ascii c (h c (List.mem_cons_self c cs)),
        ih (fun x hx => h x (List.mem_cons_of_mem _ hx))]
      rfl

/-- Over an all-ASCII path of bounded length, the Go wrapping fold, the
JavaScript double-rounding fold and the unbounded-integer fold of §4.5
all agree: no intermediate value leaves `[0, 2^53]`, where 64-bit
wraparound and double rounding are both the identity. -/
theorem fold_agree (s : List Char) (h : Int)
    (hascii : ∀ c ∈ s, c.toNat < 128) (h0 : 0 ≤ h)
    (hbound : 31 ^ s.length * (30 * h + 127) ≤ 30 * 2 ^ 53 + 127) :
    s.foldl (fun h c => wrap64 (h * 31 + (c.toNat : Int))) h =
      s.foldl (fun h c => h * 31 + (c.toNat : Int)) h
    ∧ (s.map (fun c => (c.toNat : Int))).foldl
        (fun h c => do
          let x ← h
          let y ← roundDouble (x * 31)
          roundDouble (y + c)) (some h) =
        some (s.foldl (fun h c => h * 31 + (c.toNat : Int)) h)
    ∧ 0 ≤ s.foldl (fun h c => h * 31 + (c.toNat : Int)) h
    ∧ s.foldl (fun h c => h * 31 + (c.toNat : Int)) h ≤ 2 ^ 53 := by
  induction s generalizing h with
  | nil =>
      refine ⟨rfl, rfl, h0, ?_⟩
      show h ≤ 2 ^ 53
      have e53 : (2 : Int) ^ 53 = 9007199254740992 := by norm_num
      rw [List.length_nil, pow_zero, one_mul] at hbound
      rw [e53] at hbound ⊢
      omega
  | cons c cs ih =>
      have e53 : (2 : Int) ^ 53 = 9007199254740992 := by norm_num
      have e63 : (2 : Int) ^ 63 = 9223372036854775808 := by norm_num
      have hc0 : (0 : Int) ≤ (c.toNat : Int) := Int.natCast_nonneg _
      have hc127 : (c.toNat : Int) ≤ 127 := by
        have hcn : c.toNat < 128 := hascii c (List.mem_cons_self c cs)
        omega
      have hone : (1 : Int) ≤ 31 ^ cs.length := one_le_pow₀ (by norm_num)
      have hpow : (0 : Int) ≤ 31 ^ cs.length := le_trans zero_le_one hone
      rw [List.length_cons, pow_succ] at hbound
      have hstep : 31 * (30 * h + 127) ≤ 30 * 2 ^ 53 + 127 := by
        calc 31 * (30 * h + 127) = 1 * (31 * (30 * h + 127)) := by ring
          _ ≤ 31 ^ cs.length * (31 * (30 * h + 127)) :=
              mul_le_mul_of_nonneg_right hone (by omega)
          _ = 31 ^ cs.length * 31 * (30 * h + 127) := by ring
          _ ≤ 30 * 2 ^ 53 + 127 := hbound
      have hA : h * 31 ≤ 2 ^ 53 := by
        rw [e53] at hstep ⊢
        omega
      have hB : h * 31 + (c.toNat : Int) ≤ 2 ^ 53 := by
        rw [e53] at hstep ⊢
        omega
      have h0' : 0 ≤ h * 31 + (c.toNat : Int) := by omega
      have hbound' :
          31 ^ cs.length * (30 * (h * 31 + (c.toNat : Int)) + 127) ≤
            30 * 2 ^ 53 + 127 := by
        have hmul : 30 * (h * 31 + (c.toNat : Int)) + 127 ≤ 31 * (30 * h + 127) := by
          omega
        calc 31 ^ cs.length * (30 * (h * 31 + (c.toNat : Int)) + 127)
            ≤ 31 ^ cs.length * (31 * (30 * h + 127)) :=
              mul_le_mul_of_nonneg_left hmul hpow
          _ = 31 ^ cs.length * 31 * (30 * h + 127) := by ring
          _ ≤ 30 * 2 ^ 53 + 127 := hbound
      obtain ⟨iGo, iJs, iNn, iLe⟩ := ih (h * 31 + (c.toNat : Int))
        (fun x hx => hascii x (List.mem_cons_of_mem _ hx)) h0' hbound'
      refine ⟨?_, ?_, ?_, ?_⟩
      · rw [List.foldl_cons, List.foldl_cons]
        rw [wrap64_eq_self (h * 31 + (c.toNat : Int)) h0'
          (by rw [e63]; rw [e53] at hB; omega)]
        exact iGo
      · have hacc :
            (Option.bind (roundDouble (h * 31)) fun y =>
              roundDouble (y + (c.toNat : Int))) =
              some (h * 31 + (c.toNat : Int)) := by
          rw [roundDouble_of_le (h * 31) hA]
          show roundDouble (h * 31 + (c.toNat : Int)) =
            some (h * 31 + (c.toNat : Int))
          exact roundDouble_of_le _ hB
        show List.foldl
            (fun h c => do
              let x ← h
              let y ← roundDouble (x * 31)
              roundDouble (y + c))
            (Option.bind (roundDouble (h * 31)) fun y =>
              roundDouble (y + (c.toNat : Int)))
            (List.map (fun c => (c.toNat : Int)) cs) =
          some (List.foldl (fun h c => h * 31 + (c.toNat : Int))
            (h * 31 + (c.toNat : Int)) cs)
        rw [hacc]
        exact iJs
      · rw [List.foldl_cons]
        exact iNn
      · rw [List.foldl_cons]
        exact iLe

end Port

/-- C1 (amended): on workspace paths made of at most 10 ASCII characters,
the Go server port function and the TypeScript client port function agree,
both equal `8123 + (abs(fold of a = a*31 + code(c)) mod 77)` in unbounded
integer arithmetic, and the port lies in `[8123, 8200)`.  (On longer or
non-ASCII paths the two sides genuinely diverge; see the counterexample.) -/
theorem claim_C1_port_rendezvous (path : List Char)
    (hascii : ∀ c ∈ path, c.toNat < 128) (hlen : path.length ≤ 10) :
    Port.generateWorkspacePort path =
      8123 + (|Port.idealHash path|).tmod 77
    ∧ Port.calculateWorkspacePort path =
        some (Port.generateWorkspacePort path)
    ∧ 8123 ≤ Port.generateWorkspacePort path
    ∧ Port.generateWorkspacePort path < 8200 := by
  have hbound0 :
      31 ^ path.length * (30 * (0 : Int) + 127) ≤ 30 * 2 ^ 53 + 127 := by
    have h1 : (31 : Int) ^ path.length ≤ 31 ^ 10 :=
      (pow_le_pow_iff_right₀ (by norm_num)).mpr hlen
    calc 31 ^ path.length * (30 * (0 : Int) + 127)
        = 31 ^ path.length * 127 := by ring
      _ ≤ 31 ^ 10 * 127 := mul_le_mul_of_nonneg_right h1 (by norm_num)
      _ ≤ 30 * 2 ^ 53 + 127 := by norm_num
  obtain ⟨iGo, iJs, iNn, iLe⟩ := Port.fold_agree path 0 hascii le_rfl hbound0
  have hgo : Port.goSimpleHash path = Port.idealHash path := by
    unfold Port.goSimpleHash Port.idealHash
    dsimp only
    rw [iGo, if_neg (not_lt.mpr iNn)]
  have hjs : Port.jsSimpleHash path = some (Port.idealHash path) := by
    unfold Port.jsSimpleHash Port.idealHash
    rw [Port.flatMap_utf16_ascii path hascii]
    exact iJs
  have iNn' : 0 ≤ Port.idealHash path := iNn
  have htm : (Port.idealHash path).tmod 77 = Port.idealHash path % 77 :=
    Int.tmod_eq_emod iNn' (by norm_num)
  refine ⟨?_, ?_, ?_, ?_⟩
  · unfold Port.generateWorkspacePort
    rw [hgo, abs_of_nonneg iNn']
  · unfold Port.calculateWorkspacePort Port.generateWorkspacePort
    rw [hjs, hgo]
    rfl
  · unfold Port.generateWorkspacePort
    rw [hgo, htm]
    omega
  · unfold Port.generateWorkspacePort
    rw [hgo, htm]
    omega

/-- Witness for C1: the concrete ASCII path `/tmp/ws` satisfies the
hypotheses and both sides agree there. -/
theorem claim_C1_port_rendezvous_witness :
    (∀ c ∈ "/tmp/ws".data, c.toNat < 128) ∧ "/tmp/ws".data.length ≤ 10 ∧
    (Port.generateWorkspacePort "/tmp/ws".data =
        8123 + (|Port.idealHash "/tmp/ws".data|).tmod 77
      ∧ Port.calculateWorkspacePort "/tmp/ws".data =
          some (Port.generateWorkspacePort "/tmp/ws".data)
      ∧ 8123 ≤ Port.generateWorkspacePort "/tmp/ws".data
      ∧ Port.generateWorkspacePort "/tmp/ws".data < 8200) :=
  ⟨by decide, by decide,
    claim_C1_port_rendezvous "/tmp/ws".data (by decide) (by decide)⟩

set_option maxRecDepth 8192

/-- Counterexample to C1 as stated: the two port functions are not equal
on every path.  A single non-ASCII character (U+1F600, one rune for Go but
a surrogate pair for `charCodeAt`) gives port 8199 server-side and 8174
client-side; eleven ASCII `a`s push the JavaScript hash past `2^53`, where
double rounding loses the low bits, giving 8198 server-side and 8197
client-side. -/
theorem claim_C1_counterexample :
    Port.generateWorkspacePort ['😀'] = 8199
    ∧ Port.calculateWorkspacePort ['😀'] = some 8174
    ∧ Port.generateWorkspacePort (List.replicate 11 'a') = 8198
    ∧ Port.calculateWorkspacePort (List.replicate 11 'a') = some 8197 := by
  refine ⟨by decide, by decide, by decide, by decide⟩

end Devgru
